import Mathlib

/-!
# thread-pool: task state machine and executor dispatch loop

A shallow embedding of `src/thread-pool/task.{h,cpp}` and
`src/thread-pool/executor.{h,cpp}`.

Modelling conventions

* A task object is a record `Task`; the objects live in a store `Heap`, addressed by `TaskId`.
  A `std::weak_ptr<Task>` is a `TaskId`; `lock()` is the lookup in the store and yields `none`
  for an expired pointer.  Dereferencing the result of a failed `lock()` is undefined behaviour
  and is modelled by the result `none` of the enclosing operation.
* `std::chrono::system_clock::time_point` is a natural number of clock ticks; the reading of
  `system_clock::now()` is an argument of the operation that reads the clock.
* `std::exception_ptr` is `Option Nat`: `none` is the null pointer, `some e` holds exception `e`.
* Every member function is one atomic step on the store: the mutexes and condition variables
  (`mutex_`, `cv_`) are not part of the state.  What each function computes under its lock is
  modelled by the function of its name; which mutexes it locks and unlocks, in which order, is
  modelled apart, by the function named `...Locks` (section "Lock operations").
* `Task::IsFinished` locks `mutex_` and then calls `IsCompleted()`, which locks `mutex_` again,
  and `AddDependency` / `AddTrigger` of a task on itself lock `mutex_` again in
  `AddSubscriber`.  What a thread experiences there depends on the mutex implementation; the
  model carries both behaviours (`Relock.blocks`, `Relock.returns`) as an index `m` of `Task`,
  `Heap` and `World`.  A call that never returns has the result `none`, like a call with
  undefined behaviour.  Statements about `World m` hold under both behaviours; the worlds of
  the section "Concrete scenarios" that contain a PENDING task or a handler are worlds where
  locking again returns, since only `Executor::Submit` past `IsFinished` produces them.
* `Executor::Submit` holds the executor's mutex throughout, but takes and gives back the
  task's mutex in `IsFinished` and again in `Pend`.  `Executor.Submit` is the call with no
  other thread in between; `Executor.SubmitCheck` and `Executor.SubmitBody` are its two halves,
  for the interleavings in which another thread locks the task's mutex between them.
* The worker loop `Executor::RunWorker` is cut at the points where the worker holds no lock:
  `RunWorkerPop` (from `lock` to `unlock`/`continue`/`return`), `RunWorkerCapture`
  (`task->Capture()` and the call of `Run`), `RunWorkerFinish` (`Run` returns or throws, then
  `Complete` or `SetError`).  `World.phase` records where each worker thread stands.
* `World.runs` is a ghost counter: the number of times `Run` was invoked on each task.
-/

namespace thread_pool

/-! ## task.h -/

/-- The enumeration `TaskState` of task.h. -/
inductive TaskState where
  | IDLE
  | PENDING
  | CANCELED
  | COMPLETED
  | FAILED
  | RUNNING
  deriving DecidableEq, Repr

abbrev TaskId := Nat

abbrev TimePoint := Nat

abbrev ExceptionPtr := Option Nat

/-- What happens when a thread locks a `std::mutex` that it already owns.  The C++ standard
leaves the call undefined; the two behaviours met in practice are modelled: the call never
returns (`blocks`, the behaviour of a plain POSIX mutex), or it returns as it would for a
recursive mutex (`returns`).  Every object of the model carries the behaviour as an index
`m`, so a statement about `World m` for arbitrary `m` holds under both. -/
inductive Relock where
  | blocks
  | returns
  deriving DecidableEq, Repr

/-- The closure that `Executor::Submit` installs as notification handler.  Its only capture is
`weak_self = weak_from_this()`; `weak_self` is `true` when `weak_self.lock()` succeeds.
`Submit` creates the closure after its call `task->IsFinished()` has returned, and that call
locks the task's mutex twice: `installed` records that the closure exists only where locking
again returns. -/
structure Handler (m : Relock) where
  weak_self : Bool
  installed : m = Relock.returns
  deriving DecidableEq

/-- The data members of `class Task` (without `mutex_` and `cv_`). -/
structure Task (m : Relock) where
  state_ : TaskState := TaskState.IDLE
  dependencies_ : List TaskId := []
  subscribers_ : List TaskId := []
  triggers_ : List TaskId := []
  time_trigger_ : Option TimePoint := none
  notification_handler_ : Option (Handler m) := none
  error_ : ExceptionPtr := none
  deriving DecidableEq

/-- The object store: `none` for a task that has been destroyed (or never existed). -/
abbrev Heap (m : Relock) := TaskId → Option (Task m)

variable {m : Relock}

/-! ## task.cpp: member functions that touch one task only -/

/-- `Task::AddSubscriber`. -/
def Task.AddSubscriber (t : Task m) (subscriber : TaskId) : Task m :=
  { t with subscribers_ := t.subscribers_ ++ [subscriber] }

/-- `Task::SetTimeTrigger`. -/
def Task.SetTimeTrigger (t : Task m) (tp : TimePoint) : Task m :=
  { t with time_trigger_ := some tp }

/-- `Task::GetTimeTrigger`. -/
def Task.GetTimeTrigger (t : Task m) : Option TimePoint :=
  t.time_trigger_

/-- `Task::Capture`: the returned flag and the task afterwards. -/
def Task.Capture (t : Task m) : Bool × Task m :=
  match t.state_ with
  | TaskState.PENDING => (true, { t with state_ := TaskState.RUNNING })
  | _ => (false, t)

/-- `Task::Pend`. -/
def Task.Pend (t : Task m) : Task m :=
  { t with state_ := TaskState.PENDING }

/-- `Task::IsCompleted`. -/
def Task.IsCompleted (t : Task m) : Bool :=
  decide (t.state_ = TaskState.COMPLETED)

/-- `Task::IsFailed`. -/
def Task.IsFailed (t : Task m) : Bool :=
  decide (t.state_ = TaskState.FAILED)

/-- `Task::IsCanceled`. -/
def Task.IsCanceled (t : Task m) : Bool :=
  decide (t.state_ = TaskState.CANCELED)

/-- `Task::IsFinished`: the value of `IsCompleted() || IsFailed() || IsCanceled()`.  The lock the
function takes and the locks the three calls take are in `Task.IsFinishedLocks`. -/
def Task.IsFinished (t : Task m) : Bool :=
  t.IsCompleted || t.IsFailed || t.IsCanceled

/-- The call `t->IsFinished()` as its caller sees it.  `Task::IsFinished` takes `mutex_` with a
`lock_guard` and, holding it, calls `IsCompleted()`, which locks `mutex_` again.  The result is
`none` when the call never returns, `some` of the value of `Task.IsFinished` when locking again
returns. -/
def Task.IsFinishedCall (t : Task m) : Option Bool :=
  if m = Relock.returns then some t.IsFinished else none

/-- `Task::GetError`. -/
def Task.GetError (t : Task m) : ExceptionPtr :=
  t.error_

/-- `Task::SetNotificationHandler`. -/
def Task.SetNotificationHandler (t : Task m) (handler : Handler m) : Task m :=
  { t with notification_handler_ := some handler }

/-- The call `std::ranges::any_of(ptrs, [](p) { return p.lock()->IsFinished(); })`.  It stops at
the first finished task; `none` when it dereferences an expired pointer before that, or when a
call of `IsFinished` never returns. -/
def anyOfFinished (h : Heap m) : List TaskId → Option Bool
  | [] => some false
  | p :: ps =>
    match h p with
    | none => none
    | some u =>
      match u.IsFinishedCall with
      | none => none
      | some true => some true
      | some false => anyOfFinished h ps

/-- The call `std::ranges::all_of(ptrs, [](p) { return p.lock()->IsFinished(); })`.  It stops at
the first unfinished task; `none` when it dereferences an expired pointer before that, or when a
call of `IsFinished` never returns. -/
def allOfFinished (h : Heap m) : List TaskId → Option Bool
  | [] => some true
  | p :: ps =>
    match h p with
    | none => none
    | some u =>
      match u.IsFinishedCall with
      | none => none
      | some true => allOfFinished h ps
      | some false => some false

/-- `Task::CanBeExecuted`, with `now` the reading of `system_clock::now()`. -/
def Task.CanBeExecuted (h : Heap m) (now : TimePoint) (t : Task m) : Option Bool :=
  if t.triggers_.isEmpty && t.dependencies_.isEmpty && !t.time_trigger_.isSome then
    some true
  else if (match t.time_trigger_ with
           | none => true
           | some tp => decide (now < tp)) then
    match anyOfFinished h t.triggers_ with
    | none => none
    | some true => some true
    | some false =>
      match allOfFinished h t.dependencies_ with
      | none => none
      | some false => some false
      | some true => some (!t.dependencies_.isEmpty)
  else
    some true

/-! ## executor.h / executor.cpp -/

/-- The data members of `class Executor` (without `mutex_` and `cv_`): `thread_count` is the size
of `workers_`, `tasks_` the deque (front first), `weak_this` tells whether `weak_from_this()`
yields a pointer that can be locked (the executor is owned by a `shared_ptr`). -/
structure Executor where
  thread_count : Nat := 1
  tasks_ : List TaskId := []
  is_finished_ : Bool := false
  weak_this : Bool := true
  deriving DecidableEq, Repr

/-- Where a worker thread stands in `RunWorker`: `waiting` at the top of the loop, `ready t`
after the unlock with the popped task `t`, `running t` inside `t->Run()`, `exited` after
`return`. -/
inductive WorkerPhase where
  | waiting
  | ready (t : TaskId)
  | running (t : TaskId)
  | exited
  deriving DecidableEq, Repr

/-- The whole state: the task objects, the executor, the control point of every worker thread
and the ghost counter of `Run` invocations. -/
structure World (m : Relock) where
  heap : Heap m
  exec : Executor := {}
  phase : Nat → WorkerPhase := fun _ => WorkerPhase.waiting
  runs : TaskId → Nat := fun _ => 0

/-- Overwrite the object `id` in the store. -/
def World.setTask (w : World m) (id : TaskId) (t : Task m) : World m :=
  { w with heap := Function.update w.heap id (some t) }

/-- Move worker `wk` to control point `p`. -/
def World.setPhase (w : World m) (wk : Nat) (p : WorkerPhase) : World m :=
  { w with phase := Function.update w.phase wk p }

/-- The three statements of `Executor::Submit` inside the `if`, on the live object `task` stored
at `id`: `task->Pend()`, `task->SetNotificationHandler(...)`, `tasks_.emplace_back(task)`.
They are reached only after `task->IsFinished()` has returned, hence `installed`. -/
def Executor.SubmitBodyOn (w : World m) (id : TaskId) (task : Task m)
    (installed : m = Relock.returns) : World m :=
  { w with
    heap := Function.update w.heap id
      (some (task.Pend.SetNotificationHandler
        { weak_self := w.exec.weak_this, installed := installed }))
    exec := { w.exec with tasks_ := w.exec.tasks_ ++ [id] } }

/-- `Executor::Submit` on the live object `task` stored at `id`, as the notification handler
calls it: where locking again returns, the test `!is_finished_ && !task->IsFinished()` and the
three statements it guards, with no other thread in between. -/
def Executor.SubmitThrough (w : World m) (id : TaskId) (task : Task m)
    (installed : m = Relock.returns) : World m :=
  if !w.exec.is_finished_ && !task.IsFinished then
    Executor.SubmitBodyOn w id task installed
  else
    w

/-- `Executor::Submit` on the live object `task` stored at `id`, with no other thread in
between.  When `is_finished_` is set, `&&` skips the call `task->IsFinished()` and `Submit`
returns at once.  Otherwise `task->IsFinished()` is called, which locks the task's mutex twice:
the result is `none` when that never returns; when it returns, a finished task is left alone
and for any other task the three guarded statements run. -/
def Executor.SubmitTask (w : World m) (id : TaskId) (task : Task m) : Option (World m) :=
  if w.exec.is_finished_ then
    some w
  else if installed : m = Relock.returns then
    some (if task.IsFinished then w else Executor.SubmitBodyOn w id task installed)
  else
    none

/-- `Executor::Submit(task)`; `none` when `task` does not point to a live object or when the
call never returns. -/
def Executor.Submit (w : World m) (id : TaskId) : Option (World m) :=
  match w.heap id with
  | none => none
  | some task => Executor.SubmitTask w id task

/-- The first half of `Executor::Submit(task)`: the value of the test
`!is_finished_ && !task->IsFinished()`.  The thread holds the executor's mutex; the task's
mutex is taken inside `IsFinished` and given back when it returns. -/
def Executor.SubmitCheck (w : World m) (id : TaskId) : Option Bool :=
  match w.heap id with
  | none => none
  | some task =>
    if w.exec.is_finished_ then
      some false
    else
      match task.IsFinishedCall with
      | none => none
      | some b => some (!b)

/-- The second half of `Executor::Submit(task)`, run after the test came out true: `Pend`,
`SetNotificationHandler`, `emplace_back`, each on the task as it is now.  Between the two
halves the thread holds only the executor's mutex, so a call that needs only the task's mutex
(`Cancel`, `Complete`, `SetError`, `Capture`) can run in between. -/
def Executor.SubmitBody (w : World m) (id : TaskId) : Option (World m) :=
  match w.heap id with
  | none => none
  | some task =>
    if installed : m = Relock.returns then
      some (Executor.SubmitBodyOn w id task installed)
    else
      none

/-- `Task::Notify` on the live object `task` stored at `id`: the installed handler, if any,
locks `weak_self` and calls `Submit`.  A handler exists only where locking again returns
(`Handler.installed`), so this `Submit` returns. -/
def Task.Notify (w : World m) (id : TaskId) (task : Task m) : World m :=
  match task.notification_handler_ with
  | some handler =>
    if handler.weak_self then Executor.SubmitThrough w id task handler.installed else w
  | none => w

/-- The loop of `Task::NotifySubscribers` over the moved-out list `subs`. -/
def Task.NotifyLoop (this : TaskId) : List TaskId → World m → World m
  | [], w => w
  | sub :: subs, w =>
    match w.heap sub with
    | some task =>
      if this ≠ sub then Task.NotifyLoop this subs (Task.Notify w sub task)
      else Task.NotifyLoop this subs w
    | none => Task.NotifyLoop this subs w

/-- `Task::NotifySubscribers` on the object `id`, whose fields are `t` at the call. -/
def Task.NotifySubscribers (w : World m) (id : TaskId) (t : Task m) : World m :=
  Task.NotifyLoop id t.subscribers_ (w.setTask id { t with subscribers_ := [] })

/-- `Task::Complete`. -/
def Task.Complete (w : World m) (id : TaskId) : Option (World m) :=
  match w.heap id with
  | none => none
  | some t => some (Task.NotifySubscribers w id { t with state_ := TaskState.COMPLETED })

/-- `Task::SetError`. -/
def Task.SetError (w : World m) (id : TaskId) (error : ExceptionPtr) : Option (World m) :=
  match w.heap id with
  | none => none
  | some t =>
    some (Task.NotifySubscribers w id { t with state_ := TaskState.FAILED, error_ := error })

/-- `Task::Cancel`. -/
def Task.Cancel (w : World m) (id : TaskId) : Option (World m) :=
  match w.heap id with
  | none => none
  | some t =>
    match t.state_ with
    | TaskState.IDLE => some (Task.NotifySubscribers w id { t with state_ := TaskState.CANCELED })
    | TaskState.PENDING =>
      some (Task.NotifySubscribers w id { t with state_ := TaskState.CANCELED })
    | TaskState.RUNNING =>
      some (Task.NotifySubscribers w id { t with state_ := TaskState.CANCELED })
    | TaskState.COMPLETED => some w
    | TaskState.FAILED => some w
    | TaskState.CANCELED => some w

/-- `Task::AddDependency`: `id->AddDependency(dep)`.  The function holds the mutex of `id`
while it calls `dep->AddSubscriber`, which locks the mutex of `dep`; for `dep = id` that is the
mutex the thread already owns, and the result is `none` when locking again never returns. -/
def Task.AddDependency (w : World m) (id dep : TaskId) : Option (World m) :=
  if id = dep ∧ m = Relock.blocks then
    none
  else
    match w.heap dep with
    | none => none
    | some d =>
      let w1 := w.setTask dep (d.AddSubscriber id)
      match w1.heap id with
      | none => none
      | some t => some (w1.setTask id { t with dependencies_ := t.dependencies_ ++ [dep] })

/-- `Task::AddTrigger`: `id->AddTrigger(trigger)`.  As in `AddDependency`, for `trigger = id`
the call `trigger->AddSubscriber` locks the mutex the thread already owns. -/
def Task.AddTrigger (w : World m) (id trigger : TaskId) : Option (World m) :=
  if id = trigger ∧ m = Relock.blocks then
    none
  else
    match w.heap trigger with
    | none => none
    | some g =>
      let w1 := w.setTask trigger (g.AddSubscriber id)
      match w1.heap id with
      | none => none
      | some t => some (w1.setTask id { t with triggers_ := t.triggers_ ++ [trigger] })

/-- `Executor::StartShutdown`. -/
def Executor.StartShutdown (w : World m) : World m :=
  { w with exec := { w.exec with is_finished_ := true, tasks_ := [] } }

/-- `Executor::RunWorker`, from `std::unique_lock lock{mutex_}` to the point where the lock is
given up: `return`, `continue` or `lock.unlock()`.  While the queue is empty and the executor is
live the worker stays blocked in `cv_.wait`. -/
def Executor.RunWorkerPop (w : World m) (wk : Nat) (now : TimePoint) : Option (World m) :=
  match w.phase wk with
  | WorkerPhase.waiting =>
    if w.exec.is_finished_ then
      some (w.setPhase wk WorkerPhase.exited)
    else
      match w.exec.tasks_ with
      | [] => some w
      | id :: rest =>
        match w.heap id with
        | none => none
        | some task =>
          match task.CanBeExecuted w.heap now with
          | none => none
          | some false =>
            if task.GetTimeTrigger.isSome then
              some { w with exec := { w.exec with tasks_ := rest ++ [id] } }
            else
              some { w with exec := { w.exec with tasks_ := rest } }
          | some true =>
            some ({ w with exec := { w.exec with tasks_ := rest } }.setPhase wk
              (WorkerPhase.ready id))
  | _ => some w

/-- `Executor::RunWorker`, the statement `if (task->Capture())` and, when it holds, the call
`task->Run()`, counted in `runs`. -/
def Executor.RunWorkerCapture (w : World m) (wk : Nat) : Option (World m) :=
  match w.phase wk with
  | WorkerPhase.ready id =>
    match w.heap id with
    | none => none
    | some task =>
      if task.Capture.1 then
        some { w with
          heap := Function.update w.heap id (some task.Capture.2)
          phase := Function.update w.phase wk (WorkerPhase.running id)
          runs := Function.update w.runs id (w.runs id + 1) }
      else
        some (w.setPhase wk WorkerPhase.waiting)
  | _ => some w

/-- `Executor::RunWorker`, the end of the `try` block: `Run` returned (`thrown = none`) and
`Complete` is called, or `Run` threw `e` (`thrown = some e`) and the handler calls
`SetError(std::current_exception())`.  The worker goes back to the top of the loop. -/
def Executor.RunWorkerFinish (w : World m) (wk : Nat) (thrown : Option Nat) : Option (World m) :=
  match w.phase wk with
  | WorkerPhase.running id =>
    match thrown with
    | none => (Task.Complete w id).map (fun w1 => w1.setPhase wk WorkerPhase.waiting)
    | some e => (Task.SetError w id (some e)).map (fun w1 => w1.setPhase wk WorkerPhase.waiting)
  | _ => some w

/-- The atomic steps of the system: calls made by user threads and the three sections of the
worker loop. -/
inductive Action where
  | Submit (t : TaskId)
  | Cancel (t : TaskId)
  | Pop (wk : Nat) (now : TimePoint)
  | Capture (wk : Nat)
  | Return (wk : Nat)
  | Throw (wk : Nat) (e : Nat)
  | StartShutdown
  deriving DecidableEq, Repr

/-- One atomic step.  Steps of a worker index outside `workers_` do nothing. -/
def World.step (w : World m) : Action → Option (World m)
  | Action.Submit t => Executor.Submit w t
  | Action.Cancel t => Task.Cancel w t
  | Action.Pop wk now => if wk < w.exec.thread_count then Executor.RunWorkerPop w wk now else some w
  | Action.Capture wk => if wk < w.exec.thread_count then Executor.RunWorkerCapture w wk else some w
  | Action.Return wk =>
    if wk < w.exec.thread_count then Executor.RunWorkerFinish w wk none else some w
  | Action.Throw wk e =>
    if wk < w.exec.thread_count then Executor.RunWorkerFinish w wk (some e) else some w
  | Action.StartShutdown => some (Executor.StartShutdown w)

/-- An interleaving: the steps of `acts` taken in order. -/
def World.run (w : World m) : List Action → Option (World m)
  | [] => some w
  | a :: acts =>
    match w.step a with
    | none => none
    | some w1 => w1.run acts

/-- The state of task `id`, when it is alive. -/
def World.stateOf (w : World m) (id : TaskId) : Option TaskState :=
  (w.heap id).map (fun t => t.state_)

/-- The result of `id->GetError()`, when task `id` is alive. -/
def World.errorOf (w : World m) (id : TaskId) : Option ExceptionPtr :=
  (w.heap id).map (fun t => t.GetError)

/-! ## Concrete scenarios -/

/-- One freshly constructed task, number 0, and an executor with two workers, where locking
again returns. -/
def oneTaskWorld : World Relock.returns :=
  { heap := fun i => if i = 0 then some {} else none
    exec := { thread_count := 2 } }

/-- One freshly constructed task, number 0, and a live executor with two workers, under either
behaviour of locking again. -/
def freshTaskWorld (m : Relock) : World m :=
  { heap := fun i => if i = 0 then some {} else none
    exec := { thread_count := 2 } }

/-- A task with one trigger, task 1, and nothing else. -/
def triggeredTask (m : Relock) : Task m :=
  { triggers_ := [1] }

/-- A store in which task 1 is alive and COMPLETED. -/
def completedUpstream (m : Relock) : Heap m :=
  fun i => if i = 1 then some { state_ := TaskState.COMPLETED } else none

/-- A task whose only wiring is a time trigger at tick 10, as `SetTimeTrigger` leaves a
freshly constructed task. -/
def timedOnlyTask (m : Relock) : Task m :=
  Task.SetTimeTrigger {} 10

/-- Task 0 has been submitted and popped: it is PENDING with the handler installed, worker 0
holds it after a successful readiness check, and the queue is empty. -/
def poppedWorld : World Relock.returns :=
  { heap := fun i =>
      if i = 0 then
        some { state_ := TaskState.PENDING,
               notification_handler_ := some { weak_self := true, installed := rfl } }
      else none
    exec := { thread_count := 2 }
    phase := fun k => if k = 0 then WorkerPhase.ready 0 else WorkerPhase.waiting }

/-- A task with a time trigger at tick 10 and one trigger, task 1. -/
def timedTriggeredTask (m : Relock) : Task m :=
  { triggers_ := [1], time_trigger_ := some 10 }

/-- Task 0 is `timedTriggeredTask`, its trigger task 1 is COMPLETED; one worker. -/
def timedWorld : World Relock.returns :=
  { heap := fun i =>
      if i = 0 then some (timedTriggeredTask Relock.returns)
      else if i = 1 then some { state_ := TaskState.COMPLETED, subscribers_ := [] }
      else none }

/-- A task with a time trigger at tick 10 and no other wiring, alone in the queue. -/
def timedOnlyWorld : World Relock.returns :=
  { heap := fun i =>
      if i = 0 then some { state_ := TaskState.PENDING, time_trigger_ := some 10 } else none
    exec := { tasks_ := [0] } }

/-- Task 0, with a time trigger at tick 10 and no other wiring, stands in the queue in front
of task 1, which has no wiring. -/
def timedFrontWorld : World Relock.returns :=
  { heap := fun i =>
      if i = 0 then some { state_ := TaskState.PENDING, time_trigger_ := some 10 }
      else if i = 1 then some { state_ := TaskState.PENDING }
      else none
    exec := { tasks_ := [0, 1] } }

/-- Two freshly constructed tasks, 0 and 1, and an executor with two workers, where locking
again returns. -/
def twoTaskWorld : World Relock.returns :=
  { heap := fun i => if i = 0 then some {} else if i = 1 then some {} else none
    exec := { thread_count := 2 } }

/-- The calls that write `state_`, each taken as one atomic step on any task: `Executor::Submit`
(the only caller of `Pend`), `Task::Cancel`, `Task::Capture`, `Task::Complete` and
`Task::SetError`. -/
inductive TaskOp where
  | Submit (t : TaskId)
  | Cancel (t : TaskId)
  | Capture (t : TaskId)
  | Complete (t : TaskId)
  | SetError (t : TaskId) (error : ExceptionPtr)
  deriving DecidableEq, Repr

/-- The call `id->Capture()` on the store (the returned flag is `Task.Capture`'s first part). -/
def Task.CaptureAt (w : World m) (id : TaskId) : Option (World m) :=
  match w.heap id with
  | none => none
  | some t => some (w.setTask id t.Capture.2)

/-- One call. -/
def World.apply (w : World m) : TaskOp → Option (World m)
  | TaskOp.Submit t => Executor.Submit w t
  | TaskOp.Cancel t => Task.Cancel w t
  | TaskOp.Capture t => Task.CaptureAt w t
  | TaskOp.Complete t => Task.Complete w t
  | TaskOp.SetError t error => Task.SetError w t error

/-- A sequence of calls, in order. -/
def World.applyAll (w : World m) : List TaskOp → Option (World m)
  | [] => some w
  | op :: ops =>
    match w.apply op with
    | none => none
    | some w1 => w1.applyAll ops

/-- Task 0 is CANCELED; nothing else exists. -/
def canceledWorld (m : Relock) : World m :=
  { heap := fun i => if i = 0 then some { state_ := TaskState.CANCELED } else none }

/-- Task 0 depends on task 1 and has been submitted; task 1 is RUNNING and lists task 0 once
as a subscriber. -/
def onceWiredWorld : World Relock.returns :=
  { heap := fun i =>
      if i = 0 then
        some { state_ := TaskState.PENDING, dependencies_ := [1],
               notification_handler_ := some { weak_self := true, installed := rfl } }
      else if i = 1 then
        some { state_ := TaskState.RUNNING, subscribers_ := [0],
               notification_handler_ := some { weak_self := true, installed := rfl } }
      else none }

/-- Every unfinished task that some task names as a dependency or trigger lists that task as a
subscriber. -/
def World.Subscribed (w : World m) : Prop :=
  ∀ t task u utask, w.heap t = some task →
    (u ∈ task.dependencies_ ∨ u ∈ task.triggers_) → w.heap u = some utask →
    utask.IsFinished = false → t ∈ utask.subscribers_

/-- An interleaving inside `Executor::Submit`: on `oneTaskWorld`, `Submit(0)` has evaluated its
test (`Executor.SubmitCheck`, true for the IDLE task), then another thread ran `Cancel(0)`,
then `Submit` ran its body (`Executor.SubmitBody`). -/
def canceledInsideSubmit : Option (World Relock.returns) :=
  (Task.Cancel oneTaskWorld 0).bind (fun w => Executor.SubmitBody w 0)

/-- Task 0 depends on task 1, both otherwise fresh; nothing has been submitted. -/
def dependentPair : World Relock.returns :=
  (Task.AddDependency twoTaskWorld 0 1).getD twoTaskWorld

/-- The same interleaving on `dependentPair`: `Submit(1)` has evaluated its test, then another
thread ran `Cancel(1)`, then `Submit(1)` ran its body. -/
def canceledInsideSubmitOfDependency : Option (World Relock.returns) :=
  (Task.Cancel dependentPair 1).bind (fun w => Executor.SubmitBody w 1)

/-! ## Lock operations

The second layer of the model: for every member function, the sequence of `lock` and `unlock`
operations its thread makes on the executor's `mutex_` and on the tasks' `mutex_`, in program
order, read off the `std::lock_guard` / `std::unique_lock` declarations and the explicit
`lock.unlock()` / `lock.lock()` calls.  A sequence is written down as if every `lock` returned;
what a `lock` of a mutex the thread already holds means is judged by `relocks`.  Where a
function dereferences an expired pointer the sequence ends there. -/

/-- The executor's `mutex_` or the `mutex_` of a task. -/
inductive Mutex where
  | executor
  | task (id : TaskId)
  deriving DecidableEq, Repr

/-- One operation on a mutex. -/
inductive LockEvent where
  | lock (m : Mutex)
  | unlock (m : Mutex)
  deriving DecidableEq, Repr

/-- Whether the mutex is the `mutex_` of some task. -/
def Mutex.isTask : Mutex → Bool
  | Mutex.executor => false
  | Mutex.task _ => true

/-- Whether the thread, holding `held`, locks a mutex it already holds somewhere in the
sequence (`std::mutex` is not recursive: the thread blocks on itself). -/
def relocks (held : List Mutex) : List LockEvent → Bool
  | [] => false
  | LockEvent.lock m :: es => if m ∈ held then true else relocks (m :: held) es
  | LockEvent.unlock m :: es => relocks (held.erase m) es

/-- Whether at some point of the sequence the thread holds the executor's mutex and a task's
mutex together. -/
def holdsBoth (held : List Mutex) : List LockEvent → Bool
  | [] => false
  | LockEvent.lock m :: es =>
    (decide (Mutex.executor ∈ m :: held) && (m :: held).any Mutex.isTask) ||
      holdsBoth (m :: held) es
  | LockEvent.unlock m :: es => holdsBoth (held.erase m) es

/-- With `n` task mutexes held at the start: `none` if somewhere in the sequence the executor's
mutex is locked while a task mutex is held, else the number of task mutexes held at the end. -/
def lockOrder : Nat → List LockEvent → Option Nat
  | n, [] => some n
  | n, LockEvent.lock Mutex.executor :: es => if n = 0 then lockOrder n es else none
  | n, LockEvent.unlock Mutex.executor :: es => lockOrder n es
  | n, LockEvent.lock (Mutex.task _) :: es => lockOrder (n + 1) es
  | n, LockEvent.unlock (Mutex.task _) :: es => lockOrder (n - 1) es

/-- `Task::AddSubscriber`: one `lock_guard`. -/
def Task.AddSubscriberLocks (id : TaskId) : List LockEvent :=
  [LockEvent.lock (Mutex.task id), LockEvent.unlock (Mutex.task id)]

/-- `Task::AddDependency`: a `lock_guard`, under it `dep->AddSubscriber`. -/
def Task.AddDependencyLocks (id dep : TaskId) : List LockEvent :=
  [LockEvent.lock (Mutex.task id)] ++ Task.AddSubscriberLocks dep ++
    [LockEvent.unlock (Mutex.task id)]

/-- `Task::AddTrigger`: a `lock_guard`, under it `trigger->AddSubscriber`. -/
def Task.AddTriggerLocks (id trigger : TaskId) : List LockEvent :=
  [LockEvent.lock (Mutex.task id)] ++ Task.AddSubscriberLocks trigger ++
    [LockEvent.unlock (Mutex.task id)]

/-- `Task::SetTimeTrigger`: one `lock_guard`. -/
def Task.SetTimeTriggerLocks (id : TaskId) : List LockEvent :=
  [LockEvent.lock (Mutex.task id), LockEvent.unlock (Mutex.task id)]

/-- `Task::GetTimeTrigger`: one `lock_guard`. -/
def Task.GetTimeTriggerLocks (id : TaskId) : List LockEvent :=
  [LockEvent.lock (Mutex.task id), LockEvent.unlock (Mutex.task id)]

/-- `Task::Capture`: one `lock_guard`. -/
def Task.CaptureLocks (id : TaskId) : List LockEvent :=
  [LockEvent.lock (Mutex.task id), LockEvent.unlock (Mutex.task id)]

/-- `Task::Pend`: one `lock_guard`. -/
def Task.PendLocks (id : TaskId) : List LockEvent :=
  [LockEvent.lock (Mutex.task id), LockEvent.unlock (Mutex.task id)]

/-- `Task::IsCompleted`: one `lock_guard`. -/
def Task.IsCompletedLocks (id : TaskId) : List LockEvent :=
  [LockEvent.lock (Mutex.task id), LockEvent.unlock (Mutex.task id)]

/-- `Task::IsFailed`: one `lock_guard`. -/
def Task.IsFailedLocks (id : TaskId) : List LockEvent :=
  [LockEvent.lock (Mutex.task id), LockEvent.unlock (Mutex.task id)]

/-- `Task::IsCanceled`: one `lock_guard`. -/
def Task.IsCanceledLocks (id : TaskId) : List LockEvent :=
  [LockEvent.lock (Mutex.task id), LockEvent.unlock (Mutex.task id)]

/-- `Task::GetError`: one `lock_guard`. -/
def Task.GetErrorLocks (id : TaskId) : List LockEvent :=
  [LockEvent.lock (Mutex.task id), LockEvent.unlock (Mutex.task id)]

/-- `Task::SetNotificationHandler`: one `lock_guard`. -/
def Task.SetNotificationHandlerLocks (id : TaskId) : List LockEvent :=
  [LockEvent.lock (Mutex.task id), LockEvent.unlock (Mutex.task id)]

/-- `Task::IsFinished` on the object `t` stored at `id`: a `lock_guard`, and under it the calls
`IsCompleted() || IsFailed() || IsCanceled()`, evaluated left to right until one is true. -/
def Task.IsFinishedLocks (t : Task m) (id : TaskId) : List LockEvent :=
  [LockEvent.lock (Mutex.task id)] ++ Task.IsCompletedLocks id ++
    (if t.IsCompleted then []
     else Task.IsFailedLocks id ++ (if t.IsFailed then [] else Task.IsCanceledLocks id)) ++
    [LockEvent.unlock (Mutex.task id)]

/-- The lock operations of `any_of(ptrs, p.lock()->IsFinished())`. -/
def anyOfFinishedLocks (h : Heap m) : List TaskId → List LockEvent
  | [] => []
  | p :: ps =>
    match h p with
    | none => []
    | some u => Task.IsFinishedLocks u p ++ (if u.IsFinished then [] else anyOfFinishedLocks h ps)

/-- The lock operations of `all_of(ptrs, p.lock()->IsFinished())`. -/
def allOfFinishedLocks (h : Heap m) : List TaskId → List LockEvent
  | [] => []
  | p :: ps =>
    match h p with
    | none => []
    | some u => Task.IsFinishedLocks u p ++ (if u.IsFinished then allOfFinishedLocks h ps else [])

/-- `Task::CanBeExecuted` on the object `t` stored at `id`: a `lock_guard`, and under it the
`IsFinished` calls of the two range algorithms, as far as they are evaluated. -/
def Task.CanBeExecutedLocks (h : Heap m) (now : TimePoint) (t : Task m) (id : TaskId) :
    List LockEvent :=
  [LockEvent.lock (Mutex.task id)] ++
    (if t.triggers_.isEmpty && t.dependencies_.isEmpty && !t.time_trigger_.isSome then []
     else if (match t.time_trigger_ with
              | none => true
              | some tp => decide (now < tp)) then
       anyOfFinishedLocks h t.triggers_ ++
         (match anyOfFinished h t.triggers_ with
          | some false => allOfFinishedLocks h t.dependencies_
          | _ => [])
     else []) ++
    [LockEvent.unlock (Mutex.task id)]

/-- `Task::Wait` on the object `t` stored at `id`, up to the first evaluation of the predicate
of `cv_.wait`: a `unique_lock`, and for a non-terminal state the call `IsFinished()` under
it. -/
def Task.WaitLocks (t : Task m) (id : TaskId) : List LockEvent :=
  [LockEvent.lock (Mutex.task id)] ++
    (if t.IsFinished then [] else Task.IsFinishedLocks t id) ++
    [LockEvent.unlock (Mutex.task id)]

/-- The body of `Executor::Submit` for the live object `task` stored at `id`: a `lock_guard` on
the executor's mutex, and under it `IsFinished` (unless `is_finished_` is set), `Pend` and
`SetNotificationHandler`. -/
def Executor.SubmitTaskLocks (w : World m) (id : TaskId) (task : Task m) : List LockEvent :=
  [LockEvent.lock Mutex.executor] ++
    (if w.exec.is_finished_ then []
     else Task.IsFinishedLocks task id ++
       (if task.IsFinished then []
        else Task.PendLocks id ++ Task.SetNotificationHandlerLocks id)) ++
    [LockEvent.unlock Mutex.executor]

/-- `Executor::Submit(task)`. -/
def Executor.SubmitLocks (w : World m) (id : TaskId) : List LockEvent :=
  match w.heap id with
  | none => [LockEvent.lock Mutex.executor]
  | some task => Executor.SubmitTaskLocks w id task

/-- `Task::Notify` on the live object `task` stored at `id`: a `unique_lock`, released by
`lock.unlock()` before the handler is called, or at the end when there is no handler. -/
def Task.NotifyLocks (w : World m) (id : TaskId) (task : Task m) : List LockEvent :=
  [LockEvent.lock (Mutex.task id), LockEvent.unlock (Mutex.task id)] ++
    (match task.notification_handler_ with
     | some handler => if handler.weak_self then Executor.SubmitTaskLocks w id task else []
     | none => [])

/-- The loop of `Task::NotifySubscribers`. -/
def Task.NotifyLoopLocks (this : TaskId) : List TaskId → World m → List LockEvent
  | [], _ => []
  | sub :: subs, w =>
    match w.heap sub with
    | some task =>
      if this ≠ sub then
        Task.NotifyLocks w sub task ++ Task.NotifyLoopLocks this subs (Task.Notify w sub task)
      else Task.NotifyLoopLocks this subs w
    | none => Task.NotifyLoopLocks this subs w

/-- `Task::NotifySubscribers`, called with the task's mutex held: `lock.unlock()`, the loop,
`lock.lock()`. -/
def Task.NotifySubscribersLocks (w : World m) (id : TaskId) (t : Task m) : List LockEvent :=
  [LockEvent.unlock (Mutex.task id)] ++
    Task.NotifyLoopLocks id t.subscribers_ (w.setTask id { t with subscribers_ := [] }) ++
    [LockEvent.lock (Mutex.task id)]

/-- `Task::Complete`. -/
def Task.CompleteLocks (w : World m) (id : TaskId) : List LockEvent :=
  match w.heap id with
  | none => []
  | some t =>
    [LockEvent.lock (Mutex.task id)] ++
      Task.NotifySubscribersLocks w id { t with state_ := TaskState.COMPLETED } ++
      [LockEvent.unlock (Mutex.task id)]

/-- `Task::SetError`. -/
def Task.SetErrorLocks (w : World m) (id : TaskId) (error : ExceptionPtr) : List LockEvent :=
  match w.heap id with
  | none => []
  | some t =>
    [LockEvent.lock (Mutex.task id)] ++
      Task.NotifySubscribersLocks w id { t with state_ := TaskState.FAILED, error_ := error } ++
      [LockEvent.unlock (Mutex.task id)]

/-- `Task::Cancel`. -/
def Task.CancelLocks (w : World m) (id : TaskId) : List LockEvent :=
  match w.heap id with
  | none => []
  | some t =>
    [LockEvent.lock (Mutex.task id)] ++
      (if t.IsFinished then []
       else Task.NotifySubscribersLocks w id { t with state_ := TaskState.CANCELED }) ++
      [LockEvent.unlock (Mutex.task id)]

/-- `Executor::StartShutdown`: one `lock_guard`. -/
def Executor.StartShutdownLocks : List LockEvent :=
  [LockEvent.lock Mutex.executor, LockEvent.unlock Mutex.executor]

/-- `Executor::RunWorker` from the `unique_lock` at the top of the loop to `return`,
`continue` or `lock.unlock()`: under the executor's mutex the calls `CanBeExecuted` and, for
a task that is not ready, `GetTimeTrigger`. -/
def Executor.RunWorkerPopLocks (w : World m) (now : TimePoint) : List LockEvent :=
  if w.exec.is_finished_ then [LockEvent.lock Mutex.executor, LockEvent.unlock Mutex.executor]
  else
    match w.exec.tasks_ with
    | [] => [LockEvent.lock Mutex.executor, LockEvent.unlock Mutex.executor]
    | id :: _ =>
      match w.heap id with
      | none => [LockEvent.lock Mutex.executor]
      | some task =>
        [LockEvent.lock Mutex.executor] ++ Task.CanBeExecutedLocks w.heap now task id ++
          (match task.CanBeExecuted w.heap now with
           | some false => Task.GetTimeTriggerLocks id
           | _ => []) ++
          [LockEvent.unlock Mutex.executor]

/-- The calls a thread can make: the member functions of `Task` and `Executor`, the worker
loop cut into its three sections. -/
inductive Call where
  | AddDependency (t dep : TaskId)
  | AddTrigger (t trigger : TaskId)
  | AddSubscriber (t : TaskId)
  | SetTimeTrigger (t : TaskId)
  | GetTimeTrigger (t : TaskId)
  | Capture (t : TaskId)
  | Pend (t : TaskId)
  | Complete (t : TaskId)
  | IsCompleted (t : TaskId)
  | IsFailed (t : TaskId)
  | IsCanceled (t : TaskId)
  | IsFinished (t : TaskId)
  | CanBeExecuted (t : TaskId) (now : TimePoint)
  | SetError (t : TaskId) (error : ExceptionPtr)
  | GetError (t : TaskId)
  | Cancel (t : TaskId)
  | Wait (t : TaskId)
  | SetNotificationHandler (t : TaskId)
  | Notify (t : TaskId)
  | Submit (t : TaskId)
  | StartShutdown
  | RunWorkerPop (now : TimePoint)
  | RunWorkerCapture (t : TaskId)
  | RunWorkerFinish (t : TaskId) (thrown : Option Nat)
  deriving DecidableEq, Repr

/-- The lock operations of a call made in state `w` by a thread that holds no mutex. -/
def World.locks (w : World m) : Call → List LockEvent
  | Call.AddDependency t dep => Task.AddDependencyLocks t dep
  | Call.AddTrigger t trigger => Task.AddTriggerLocks t trigger
  | Call.AddSubscriber t => Task.AddSubscriberLocks t
  | Call.SetTimeTrigger t => Task.SetTimeTriggerLocks t
  | Call.GetTimeTrigger t => Task.GetTimeTriggerLocks t
  | Call.Capture t => Task.CaptureLocks t
  | Call.Pend t => Task.PendLocks t
  | Call.Complete t => Task.CompleteLocks w t
  | Call.IsCompleted t => Task.IsCompletedLocks t
  | Call.IsFailed t => Task.IsFailedLocks t
  | Call.IsCanceled t => Task.IsCanceledLocks t
  | Call.IsFinished t =>
    match w.heap t with
    | none => []
    | some task => Task.IsFinishedLocks task t
  | Call.CanBeExecuted t now =>
    match w.heap t with
    | none => []
    | some task => Task.CanBeExecutedLocks w.heap now task t
  | Call.SetError t error => Task.SetErrorLocks w t error
  | Call.GetError t => Task.GetErrorLocks t
  | Call.Cancel t => Task.CancelLocks w t
  | Call.Wait t =>
    match w.heap t with
    | none => []
    | some task => Task.WaitLocks task t
  | Call.SetNotificationHandler t => Task.SetNotificationHandlerLocks t
  | Call.Notify t =>
    match w.heap t with
    | none => []
    | some task => Task.NotifyLocks w t task
  | Call.Submit t => Executor.SubmitLocks w t
  | Call.StartShutdown => Executor.StartShutdownLocks
  | Call.RunWorkerPop now => Executor.RunWorkerPopLocks w now
  | Call.RunWorkerCapture t => Task.CaptureLocks t
  | Call.RunWorkerFinish t thrown =>
    match thrown with
    | none => Task.CompleteLocks w t
    | some e => Task.SetErrorLocks w t (some e)

/-! ## Basic facts about one task -/

theorem Task.IsFinished_iff (t : Task m) :
    t.IsFinished = true ↔
      t.state_ = TaskState.COMPLETED ∨ t.state_ = TaskState.FAILED ∨
        t.state_ = TaskState.CANCELED := by
  simp [Task.IsFinished, Task.IsCompleted, Task.IsFailed, Task.IsCanceled, or_assoc]

theorem Task.IsFinished_eq_false_iff (t : Task m) :
    t.IsFinished = false ↔
      t.state_ = TaskState.IDLE ∨ t.state_ = TaskState.PENDING ∨
        t.state_ = TaskState.RUNNING := by
  cases hs : t.state_ <;>
    simp [Task.IsFinished, Task.IsCompleted, Task.IsFailed, Task.IsCanceled, hs]

theorem Relock.blocks_of_ne_returns (r : Relock) (h : r ≠ Relock.returns) :
    r = Relock.blocks := by
  cases r with
  | blocks => rfl
  | returns => exact absurd rfl h

theorem Task.IsFinishedCall_of_returns (t : Task m) (hm : m = Relock.returns) :
    t.IsFinishedCall = some t.IsFinished := by
  simp [Task.IsFinishedCall, hm]

theorem Task.IsFinishedCall_of_blocks (t : Task m) (hm : m = Relock.blocks) :
    t.IsFinishedCall = none := by
  simp [Task.IsFinishedCall, hm]

/-- Where locking again never returns, `any_of` returns only on the empty list. -/
theorem anyOfFinished_of_blocks (hm : m = Relock.blocks) (h : Heap m) (p : TaskId)
    (ps : List TaskId) : anyOfFinished h (p :: ps) = none := by
  cases hp : h p with
  | none => simp [anyOfFinished, hp]
  | some u => simp [anyOfFinished, hp, Task.IsFinishedCall_of_blocks u hm]

/-- Where locking again never returns, `all_of` returns only on the empty list. -/
theorem allOfFinished_of_blocks (hm : m = Relock.blocks) (h : Heap m) (p : TaskId)
    (ps : List TaskId) : allOfFinished h (p :: ps) = none := by
  cases hp : h p with
  | none => simp [allOfFinished, hp]
  | some u => simp [allOfFinished, hp, Task.IsFinishedCall_of_blocks u hm]

theorem anyOfFinished_spec (hm : m = Relock.returns) (h : Heap m) (ps : List TaskId)
    (alive : ∀ p ∈ ps, ∃ u, h p = some u) :
    ∃ b, anyOfFinished h ps = some b ∧
      (b = true ↔ ∃ p ∈ ps, ∃ u, h p = some u ∧ u.IsFinished = true) := by
  induction ps with
  | nil => exact ⟨false, rfl, by simp⟩
  | cons p ps ih =>
    obtain ⟨u, hu⟩ := alive p (List.mem_cons_self p ps)
    obtain ⟨b, hb, hiff⟩ := ih (fun q hq => alive q (List.mem_cons_of_mem p hq))
    have hcall := Task.IsFinishedCall_of_returns u hm
    by_cases hfin : u.IsFinished = true
    · refine ⟨true, by simp [anyOfFinished, hu, hcall, hfin], ?_⟩
      simp only [true_iff]
      exact ⟨p, List.mem_cons_self p ps, u, hu, hfin⟩
    · refine ⟨b, by simp [anyOfFinished, hu, hcall, hfin, hb], ?_⟩
      rw [hiff]
      constructor
      · rintro ⟨q, hq, v, hv, hvf⟩
        exact ⟨q, List.mem_cons_of_mem p hq, v, hv, hvf⟩
      · rintro ⟨q, hq, v, hv, hvf⟩
        rcases List.mem_cons.mp hq with rfl | hq
        · rw [hu] at hv
          cases hv
          exact absurd hvf hfin
        · exact ⟨q, hq, v, hv, hvf⟩

theorem allOfFinished_spec (hm : m = Relock.returns) (h : Heap m) (ps : List TaskId)
    (alive : ∀ p ∈ ps, ∃ u, h p = some u) :
    ∃ b, allOfFinished h ps = some b ∧
      (b = true ↔ ∀ p ∈ ps, ∃ u, h p = some u ∧ u.IsFinished = true) := by
  induction ps with
  | nil => exact ⟨true, rfl, by simp⟩
  | cons p ps ih =>
    obtain ⟨u, hu⟩ := alive p (List.mem_cons_self p ps)
    obtain ⟨b, hb, hiff⟩ := ih (fun q hq => alive q (List.mem_cons_of_mem p hq))
    have hcall := Task.IsFinishedCall_of_returns u hm
    by_cases hfin : u.IsFinished = true
    · refine ⟨b, by simp [allOfFinished, hu, hcall, hfin, hb], ?_⟩
      rw [hiff]
      constructor
      · intro hall q hq
        rcases List.mem_cons.mp hq with rfl | hq
        · exact ⟨u, hu, hfin⟩
        · exact hall q hq
      · intro hall q hq
        exact hall q (List.mem_cons_of_mem p hq)
    · refine ⟨false, by simp [allOfFinished, hu, hcall, hfin], ?_⟩
      simp only [Bool.false_eq_true, false_iff]
      intro hall
      obtain ⟨v, hv, hvf⟩ := hall p (List.mem_cons_self p ps)
      rw [hu] at hv
      cases hv
      exact hfin hvf

/-! ## Readiness -/

/-- Where locking again returns and every referenced upstream task is alive,
`Task::CanBeExecuted` returns, and it returns true exactly when (1) the dependency list, the
trigger list and the time trigger are all empty, or (2) the time trigger is set and `now` has
reached it, or (3) some trigger is finished, or (4) the dependency list is non-empty and all of
it is finished. -/
theorem CanBeExecuted_of_returns (hm : m = Relock.returns) (h : Heap m) (now : TimePoint)
    (t : Task m) (alive : ∀ p ∈ t.triggers_ ++ t.dependencies_, ∃ u, h p = some u) :
    ∃ b, t.CanBeExecuted h now = some b ∧
      (b = true ↔
        (t.dependencies_ = [] ∧ t.triggers_ = [] ∧ t.time_trigger_ = none) ∨
        (∃ tp, t.time_trigger_ = some tp ∧ tp ≤ now) ∨
        (∃ g ∈ t.triggers_, ∃ u, h g = some u ∧
          (u.state_ = TaskState.COMPLETED ∨ u.state_ = TaskState.FAILED ∨
            u.state_ = TaskState.CANCELED)) ∨
        (t.dependencies_ ≠ [] ∧ ∀ d ∈ t.dependencies_, ∃ u, h d = some u ∧
          (u.state_ = TaskState.COMPLETED ∨ u.state_ = TaskState.FAILED ∨
            u.state_ = TaskState.CANCELED))) := by
  obtain ⟨bg, hbg, hgiff⟩ := anyOfFinished_spec hm h t.triggers_
    (fun p hp => alive p (List.mem_append_left _ hp))
  obtain ⟨bd, hbd, hdiff⟩ := allOfFinished_spec hm h t.dependencies_
    (fun p hp => alive p (List.mem_append_right _ hp))
  simp only [Task.IsFinished_iff] at hgiff hdiff
  rw [← hgiff, ← hdiff]
  unfold Task.CanBeExecuted
  rw [hbg, hbd]
  rcases htt : t.time_trigger_ with _ | tp
  · cases hG : t.triggers_ <;> cases hD : t.dependencies_ <;> cases bg <;> cases bd <;> simp
  · by_cases hlt : now < tp
    · have hle : ¬ tp ≤ now := Nat.not_le.mpr hlt
      cases hG : t.triggers_ <;> cases hD : t.dependencies_ <;> cases bg <;> cases bd <;>
        simp [hlt, hle]
    · have hle : tp ≤ now := Nat.le_of_not_lt hlt
      cases hG : t.triggers_ <;> cases hD : t.dependencies_ <;> simp [hlt, hle]

/-- Where locking again never returns, `Task::CanBeExecuted` returns only when it reads no
upstream task: true in cases (1) and (2), false when both lists are empty and the time trigger
lies ahead, and no result in every other case. -/
theorem CanBeExecuted_of_blocks (hm : m = Relock.blocks) (h : Heap m) (now : TimePoint)
    (t : Task m) :
    t.CanBeExecuted h now =
      if t.triggers_ = [] ∧ t.dependencies_ = [] ∧ t.time_trigger_ = none then some true
      else if ∃ tp, t.time_trigger_ = some tp ∧ tp ≤ now then some true
      else if t.triggers_ = [] ∧ t.dependencies_ = [] then some false
      else none := by
  unfold Task.CanBeExecuted
  rcases htt : t.time_trigger_ with _ | tp
  · rcases hG : t.triggers_ with _ | ⟨g, gs⟩
    · rcases hD : t.dependencies_ with _ | ⟨d, ds⟩
      · simp
      · simp [anyOfFinished, allOfFinished_of_blocks hm]
    · simp [anyOfFinished_of_blocks hm]
  · by_cases hlt : now < tp
    · have hle : ¬ tp ≤ now := Nat.not_le.mpr hlt
      rcases hG : t.triggers_ with _ | ⟨g, gs⟩
      · rcases hD : t.dependencies_ with _ | ⟨d, ds⟩
        · simp [hlt, hle, anyOfFinished, allOfFinished]
        · simp [hlt, hle, anyOfFinished, allOfFinished_of_blocks hm]
      · simp [hlt, hle, anyOfFinished_of_blocks hm]
    · have hle : tp ≤ now := Nat.le_of_not_lt hlt
      simp [hlt, hle]

/-- C1. The four cases of the claim decide `Task::CanBeExecuted` only where locking a mutex
again returns.  Where it never returns, the call returns true exactly in cases (1) and (2);
when the task has a trigger or a dependency and no time trigger that has elapsed, in
particular in cases (3) and (4), the call does not return at all, because it calls
`IsFinished` on an upstream task.  Where locking again returns and the upstream tasks are
alive, the call returns, and it returns true exactly in the four cases. -/
theorem CanBeExecuted_blocks_on_upstream (h : Heap m) (now : TimePoint) (t : Task m) :
    (m = Relock.blocks →
      (t.CanBeExecuted h now = some true ↔
        (t.dependencies_ = [] ∧ t.triggers_ = [] ∧ t.time_trigger_ = none) ∨
        (∃ tp, t.time_trigger_ = some tp ∧ tp ≤ now)) ∧
      ((t.triggers_ ≠ [] ∨ t.dependencies_ ≠ []) →
        (∀ tp, t.time_trigger_ = some tp → now < tp) → t.CanBeExecuted h now = none)) ∧
    (m = Relock.returns → (∀ p ∈ t.triggers_ ++ t.dependencies_, ∃ u, h p = some u) →
      ∃ b, t.CanBeExecuted h now = some b ∧
        (b = true ↔
          (t.dependencies_ = [] ∧ t.triggers_ = [] ∧ t.time_trigger_ = none) ∨
          (∃ tp, t.time_trigger_ = some tp ∧ tp ≤ now) ∨
          (∃ g ∈ t.triggers_, ∃ u, h g = some u ∧
            (u.state_ = TaskState.COMPLETED ∨ u.state_ = TaskState.FAILED ∨
              u.state_ = TaskState.CANCELED)) ∨
          (t.dependencies_ ≠ [] ∧ ∀ d ∈ t.dependencies_, ∃ u, h d = some u ∧
            (u.state_ = TaskState.COMPLETED ∨ u.state_ = TaskState.FAILED ∨
              u.state_ = TaskState.CANCELED)))) := by
  refine ⟨?_, fun hm alive => CanBeExecuted_of_returns hm h now t alive⟩
  intro hm
  rw [CanBeExecuted_of_blocks hm h now t]
  constructor
  · constructor
    · intro hres
      split at hres
      · next h1 => exact Or.inl ⟨h1.2.1, h1.1, h1.2.2⟩
      · split at hres
        · next h2 => exact Or.inr h2
        · split at hres <;> cases hres
    · rintro (⟨hD, hG, hT⟩ | h2)
      · rw [if_pos ⟨hG, hD, hT⟩]
      · split
        · rfl
        · simp only [h2, if_true]
  · intro hwired hearly
    have h1 : ¬ (t.triggers_ = [] ∧ t.dependencies_ = [] ∧ t.time_trigger_ = none) := by
      rintro ⟨hG, hD, -⟩
      rcases hwired with hw | hw
      · exact hw hG
      · exact hw hD
    have h2 : ¬ ∃ tp, t.time_trigger_ = some tp ∧ tp ≤ now := by
      rintro ⟨tp, htp, hle⟩
      exact absurd (hearly tp htp) (Nat.not_lt.mpr hle)
    have h3 : ¬ (t.triggers_ = [] ∧ t.dependencies_ = []) := by
      rintro ⟨hG, hD⟩
      rcases hwired with hw | hw
      · exact hw hG
      · exact hw hD
    rw [if_neg h1, if_neg h2, if_neg h3]

/-- C1, at a task whose only trigger is COMPLETED, case (3) of the claim: where locking again
never returns the call does not return; where it returns the call returns true. -/
theorem CanBeExecuted_blocks_on_upstream_witness :
    (triggeredTask Relock.blocks).CanBeExecuted (completedUpstream Relock.blocks) 0 = none ∧
    (triggeredTask Relock.returns).CanBeExecuted (completedUpstream Relock.returns) 0 =
      some true := by
  refine ⟨((CanBeExecuted_blocks_on_upstream (completedUpstream Relock.blocks) 0
    (triggeredTask Relock.blocks)).1 rfl).2 (Or.inl (by simp [triggeredTask]))
    (by simp [triggeredTask]), ?_⟩
  obtain ⟨b, hb, hiff⟩ := (CanBeExecuted_blocks_on_upstream (completedUpstream Relock.returns) 0
    (triggeredTask Relock.returns)).2 rfl (by simp [triggeredTask, completedUpstream])
  have hb1 : b = true :=
    hiff.mpr (Or.inr (Or.inr (Or.inl
      ⟨1, by simp [triggeredTask], { state_ := TaskState.COMPLETED },
        by simp [completedUpstream], Or.inl rfl⟩)))
  rw [hb, hb1]

/-! ## State transitions of one task -/

/-- C8. `Task::Capture` returns true exactly when the state is PENDING, and then the state
becomes RUNNING; in every other state it returns false and the state stays.  The dependency,
trigger and subscriber lists, the time trigger and the stored error are never changed. -/
theorem Capture_spec (t : Task m) :
    (t.Capture.1 = true ↔ t.state_ = TaskState.PENDING) ∧
    (t.state_ = TaskState.PENDING → t.Capture.2.state_ = TaskState.RUNNING) ∧
    (t.state_ ≠ TaskState.PENDING → t.Capture.1 = false ∧ t.Capture.2.state_ = t.state_) ∧
    t.Capture.2.dependencies_ = t.dependencies_ ∧
    t.Capture.2.triggers_ = t.triggers_ ∧
    t.Capture.2.subscribers_ = t.subscribers_ ∧
    t.Capture.2.time_trigger_ = t.time_trigger_ ∧
    t.Capture.2.error_ = t.error_ := by
  cases hs : t.state_ <;> simp [Task.Capture, hs]

/-! ## Frame lemmas for `Submit` and the notification loop -/

theorem SubmitThrough_heap_of_ne (w : World m) (id x : TaskId) (task : Task m)
    (hm : m = Relock.returns) (hx : x ≠ id) :
    (Executor.SubmitThrough w id task hm).heap x = w.heap x := by
  unfold Executor.SubmitThrough
  split
  · simp [Executor.SubmitBodyOn, Function.update_noteq hx]
  · rfl

theorem SubmitThrough_of_finished (w : World m) (id : TaskId) (task : Task m)
    (hm : m = Relock.returns) (hfin : task.IsFinished = true) :
    Executor.SubmitThrough w id task hm = w := by
  simp [Executor.SubmitThrough, hfin]

theorem SubmitThrough_frame (w : World m) (id : TaskId) (task : Task m)
    (hm : m = Relock.returns) :
    (Executor.SubmitThrough w id task hm).phase = w.phase ∧
    (Executor.SubmitThrough w id task hm).runs = w.runs ∧
    (Executor.SubmitThrough w id task hm).exec.is_finished_ = w.exec.is_finished_ ∧
    (Executor.SubmitThrough w id task hm).exec.thread_count = w.exec.thread_count ∧
    (Executor.SubmitThrough w id task hm).exec.weak_this = w.exec.weak_this ∧
    w.exec.tasks_ <+: (Executor.SubmitThrough w id task hm).exec.tasks_ := by
  unfold Executor.SubmitThrough
  split
  · exact ⟨rfl, rfl, rfl, rfl, rfl, List.prefix_append _ _⟩
  · exact ⟨rfl, rfl, rfl, rfl, rfl, List.prefix_refl _⟩

theorem SubmitThrough_state (w : World m) (id x : TaskId) (task : Task m)
    (hm : m = Relock.returns) (hid : w.heap id = some task) :
    (Executor.SubmitThrough w id task hm).stateOf x = w.stateOf x ∨
      (Executor.SubmitThrough w id task hm).stateOf x = some TaskState.PENDING := by
  unfold Executor.SubmitThrough
  split
  · by_cases hx : x = id
    · subst hx
      right
      simp [Executor.SubmitBodyOn, World.stateOf, Task.Pend, Task.SetNotificationHandler]
    · left
      simp [Executor.SubmitBodyOn, World.stateOf, Function.update_noteq hx]
  · exact Or.inl rfl

theorem SubmitThrough_preserves (w : World m) (id x : TaskId) (task tx : Task m)
    (hm : m = Relock.returns)
    (hid : w.heap id = some task) (hx : w.heap x = some tx) (hfin : tx.IsFinished = true) :
    (Executor.SubmitThrough w id task hm).heap x = some tx := by
  by_cases hxi : x = id
  · subst hxi
    rw [hid] at hx
    cases hx
    rw [SubmitThrough_of_finished w x task hm hfin, hid]
  · rw [SubmitThrough_heap_of_ne w id x task hm hxi, hx]

/-- `Executor::Submit` on a live object, in terms of the flag and of what locking again does. -/
theorem SubmitTask_eq (w : World m) (id : TaskId) (task : Task m) :
    (w.exec.is_finished_ = true → Executor.SubmitTask w id task = some w) ∧
    (w.exec.is_finished_ = false → m = Relock.blocks → Executor.SubmitTask w id task = none) ∧
    (∀ hm : m = Relock.returns,
      Executor.SubmitTask w id task = some (Executor.SubmitThrough w id task hm)) := by
  refine ⟨?_, ?_, ?_⟩
  · intro hfl
    simp [Executor.SubmitTask, hfl]
  · intro hfl hm
    simp [Executor.SubmitTask, hfl, hm]
  · intro hm
    cases hfl : w.exec.is_finished_
    · cases hf : task.IsFinished <;>
        simp [Executor.SubmitTask, hfl, hm, Executor.SubmitThrough, hf]
    · simp [Executor.SubmitTask, hfl, Executor.SubmitThrough]

/-- `Executor::Submit` is its test followed, when the test is true, by its body. -/
theorem Submit_eq_check_then_body (w : World m) (id : TaskId) :
    Executor.Submit w id =
      (Executor.SubmitCheck w id).bind
        (fun b => if b = true then Executor.SubmitBody w id else some w) := by
  unfold Executor.Submit Executor.SubmitCheck Executor.SubmitBody
  cases hid : w.heap id with
  | none => rfl
  | some task =>
    cases hfl : w.exec.is_finished_
    · cases m with
      | blocks => simp [Executor.SubmitTask, hfl, Task.IsFinishedCall]
      | returns =>
        cases hf : task.IsFinished <;>
          simp [Executor.SubmitTask, hfl, Task.IsFinishedCall, Executor.SubmitThrough, hf]
    · simp [Executor.SubmitTask, hfl]

theorem Notify_heap_of_ne (w : World m) (id x : TaskId) (task : Task m) (hx : x ≠ id) :
    (Task.Notify w id task).heap x = w.heap x := by
  unfold Task.Notify
  split
  · split
    · exact SubmitThrough_heap_of_ne w id x task _ hx
    · rfl
  · rfl

theorem Notify_frame (w : World m) (id : TaskId) (task : Task m) :
    (Task.Notify w id task).phase = w.phase ∧
    (Task.Notify w id task).runs = w.runs ∧
    (Task.Notify w id task).exec.is_finished_ = w.exec.is_finished_ ∧
    (Task.Notify w id task).exec.thread_count = w.exec.thread_count ∧
    (Task.Notify w id task).exec.weak_this = w.exec.weak_this ∧
    w.exec.tasks_ <+: (Task.Notify w id task).exec.tasks_ := by
  unfold Task.Notify
  split
  · split
    · exact SubmitThrough_frame w id task _
    · exact ⟨rfl, rfl, rfl, rfl, rfl, List.prefix_refl _⟩
  · exact ⟨rfl, rfl, rfl, rfl, rfl, List.prefix_refl _⟩

theorem Notify_state (w : World m) (id x : TaskId) (task : Task m) (hid : w.heap id = some task) :
    (Task.Notify w id task).stateOf x = w.stateOf x ∨
      (Task.Notify w id task).stateOf x = some TaskState.PENDING := by
  unfold Task.Notify
  split
  · split
    · exact SubmitThrough_state w id x task _ hid
    · exact Or.inl rfl
  · exact Or.inl rfl

theorem Notify_preserves (w : World m) (id x : TaskId) (task tx : Task m)
    (hid : w.heap id = some task) (hx : w.heap x = some tx) (hfin : tx.IsFinished = true) :
    (Task.Notify w id task).heap x = some tx := by
  unfold Task.Notify
  split
  · split
    · exact SubmitThrough_preserves w id x task tx _ hid hx hfin
    · exact hx
  · exact hx

/-- Where locking again never returns no handler exists, and `Notify` does nothing. -/
theorem Notify_of_blocks (hm : m = Relock.blocks) (w : World m) (id : TaskId) (task : Task m) :
    Task.Notify w id task = w := by
  unfold Task.Notify
  split
  · next handler _ =>
    have h1 := handler.installed
    rw [hm] at h1
    cases h1
  · rfl

theorem NotifyLoop_heap_this (this : TaskId) (subs : List TaskId) (w : World m) :
    (Task.NotifyLoop this subs w).heap this = w.heap this := by
  induction subs generalizing w with
  | nil => rfl
  | cons sub subs ih =>
    unfold Task.NotifyLoop
    split
    · split
      · next task _ hne =>
        rw [ih, Notify_heap_of_ne w sub this task hne]
      · exact ih w
    · exact ih w

theorem NotifyLoop_frame (this : TaskId) (subs : List TaskId) (w : World m) :
    (Task.NotifyLoop this subs w).phase = w.phase ∧
    (Task.NotifyLoop this subs w).runs = w.runs ∧
    (Task.NotifyLoop this subs w).exec.is_finished_ = w.exec.is_finished_ ∧
    (Task.NotifyLoop this subs w).exec.thread_count = w.exec.thread_count ∧
    (Task.NotifyLoop this subs w).exec.weak_this = w.exec.weak_this ∧
    w.exec.tasks_ <+: (Task.NotifyLoop this subs w).exec.tasks_ := by
  induction subs generalizing w with
  | nil => exact ⟨rfl, rfl, rfl, rfl, rfl, List.prefix_refl _⟩
  | cons sub subs ih =>
    unfold Task.NotifyLoop
    split
    · split
      · next task _ _ =>
        obtain ⟨h1, h2, h3, h4, h5, h6⟩ := ih (Task.Notify w sub task)
        obtain ⟨g1, g2, g3, g4, g5, g6⟩ := Notify_frame w sub task
        exact ⟨h1.trans g1, h2.trans g2, h3.trans g3, h4.trans g4, h5.trans g5,
          List.IsPrefix.trans g6 h6⟩
      · exact ih w
    · exact ih w

theorem NotifyLoop_state (this : TaskId) (subs : List TaskId) (w : World m) (x : TaskId) :
    (Task.NotifyLoop this subs w).stateOf x = w.stateOf x ∨
      (Task.NotifyLoop this subs w).stateOf x = some TaskState.PENDING := by
  induction subs generalizing w with
  | nil => exact Or.inl rfl
  | cons sub subs ih =>
    unfold Task.NotifyLoop
    split
    · split
      · next task htask _ =>
        rcases ih (Task.Notify w sub task) with h1 | h1
        · rcases Notify_state w sub x task htask with h2 | h2
          · exact Or.inl (h1.trans h2)
          · exact Or.inr (h1.trans h2)
        · exact Or.inr h1
      · exact ih w
    · exact ih w

theorem NotifyLoop_preserves (this : TaskId) (subs : List TaskId) (w : World m) (x : TaskId)
    (tx : Task m) (hx : w.heap x = some tx) (hfin : tx.IsFinished = true) :
    (Task.NotifyLoop this subs w).heap x = some tx := by
  induction subs generalizing w with
  | nil => exact hx
  | cons sub subs ih =>
    unfold Task.NotifyLoop
    split
    · split
      · next task htask _ =>
        exact ih (Task.Notify w sub task) (Notify_preserves w sub x task tx htask hx hfin)
      · exact ih w hx
    · exact ih w hx

theorem NotifySubscribers_heap_this (w : World m) (id : TaskId) (t : Task m) :
    (Task.NotifySubscribers w id t).heap id = some { t with subscribers_ := [] } := by
  unfold Task.NotifySubscribers
  rw [NotifyLoop_heap_this]
  simp [World.setTask]

theorem NotifySubscribers_frame (w : World m) (id : TaskId) (t : Task m) :
    (Task.NotifySubscribers w id t).phase = w.phase ∧
    (Task.NotifySubscribers w id t).runs = w.runs ∧
    (Task.NotifySubscribers w id t).exec.is_finished_ = w.exec.is_finished_ ∧
    (Task.NotifySubscribers w id t).exec.thread_count = w.exec.thread_count ∧
    (Task.NotifySubscribers w id t).exec.weak_this = w.exec.weak_this ∧
    w.exec.tasks_ <+: (Task.NotifySubscribers w id t).exec.tasks_ := by
  unfold Task.NotifySubscribers
  exact NotifyLoop_frame id t.subscribers_ (w.setTask id { t with subscribers_ := [] })

theorem NotifySubscribers_preserves (w : World m) (id x : TaskId) (t tx : Task m) (hne : x ≠ id)
    (hx : w.heap x = some tx) (hfin : tx.IsFinished = true) :
    (Task.NotifySubscribers w id t).heap x = some tx := by
  unfold Task.NotifySubscribers
  apply NotifyLoop_preserves _ _ _ _ _ _ hfin
  simp [World.setTask, Function.update_noteq hne, hx]

/-! ## `Executor::Submit` and `Task::Cancel` -/

/-- C7. `Executor::Submit(task)` on an executor whose finished flag is set returns without
changing anything.  On a live executor `Submit` calls `task->IsFinished()`, which locks the
task's mutex twice: where that never returns, `Submit` never returns, whatever the state of the
task, and task and queue stay as they were.  Where it returns, a COMPLETED, FAILED or CANCELED
task is dropped without any change, and every other task ends PENDING with the handler
installed and is appended at the back of the queue. -/
theorem Submit_returns_only_past_IsFinished (w : World m) (id : TaskId) (task : Task m)
    (hid : w.heap id = some task) :
    (w.exec.is_finished_ = true → Executor.Submit w id = some w) ∧
    (w.exec.is_finished_ = false → m = Relock.blocks → Executor.Submit w id = none) ∧
    (∀ hm : m = Relock.returns,
      ((task.state_ = TaskState.COMPLETED ∨ task.state_ = TaskState.FAILED ∨
          task.state_ = TaskState.CANCELED) →
        Executor.Submit w id = some w) ∧
      ((w.exec.is_finished_ = false ∧
          (task.state_ = TaskState.IDLE ∨ task.state_ = TaskState.PENDING ∨
            task.state_ = TaskState.RUNNING)) →
        ∃ w1 t1, Executor.Submit w id = some w1 ∧ w1.heap id = some t1 ∧
          t1.state_ = TaskState.PENDING ∧
          t1.notification_handler_ =
            some { weak_self := w.exec.weak_this, installed := hm } ∧
          w1.exec.tasks_ = w.exec.tasks_ ++ [id])) := by
  refine ⟨?_, ?_, ?_⟩
  · intro hfl
    simp [Executor.Submit, hid, Executor.SubmitTask, hfl]
  · intro hfl hm
    simp [Executor.Submit, hid, Executor.SubmitTask, hfl, hm]
  · intro hm
    have hsub : Executor.Submit w id = some (Executor.SubmitThrough w id task hm) := by
      simp only [Executor.Submit, hid]
      exact (SubmitTask_eq w id task).2.2 hm
    constructor
    · intro hfin
      have hf : task.IsFinished = true := (Task.IsFinished_iff task).mpr hfin
      rw [hsub, SubmitThrough_of_finished w id task hm hf]
    · rintro ⟨hfl, hlive⟩
      have hf : task.IsFinished = false := (Task.IsFinished_eq_false_iff task).mpr hlive
      have hbody : Executor.SubmitThrough w id task hm = Executor.SubmitBodyOn w id task hm := by
        simp [Executor.SubmitThrough, hfl, hf]
      refine ⟨Executor.SubmitBodyOn w id task hm,
        task.Pend.SetNotificationHandler { weak_self := w.exec.weak_this, installed := hm },
        by rw [hsub, hbody], ?_, rfl, rfl, rfl⟩
      simp [Executor.SubmitBodyOn]

/-- C7, at a freshly constructed task on a live executor with an empty queue: where locking
again never returns `Submit` does not return; where it returns the task is PENDING, carries
the handler and is alone in the queue. -/
theorem Submit_returns_only_past_IsFinished_witness :
    Executor.Submit (freshTaskWorld Relock.blocks) 0 = none ∧
    ∃ w1 t1, Executor.Submit oneTaskWorld 0 = some w1 ∧ w1.heap 0 = some t1 ∧
      t1.state_ = TaskState.PENDING ∧
      t1.notification_handler_ = some { weak_self := true, installed := rfl } ∧
      w1.exec.tasks_ = [0] :=
  ⟨(Submit_returns_only_past_IsFinished (freshTaskWorld Relock.blocks) 0 {} rfl).2.1 rfl rfl,
    ((Submit_returns_only_past_IsFinished oneTaskWorld 0 {} rfl).2.2 rfl).2 ⟨rfl, Or.inl rfl⟩⟩

/-- C9. `Task::Cancel` on an IDLE, PENDING or RUNNING task leaves it CANCELED; on a COMPLETED,
FAILED or CANCELED task it changes nothing at all; calling it twice gives the same result as
calling it once. -/
theorem Cancel_spec (w : World m) (id : TaskId) (t : Task m) (hid : w.heap id = some t) :
    ((t.state_ = TaskState.IDLE ∨ t.state_ = TaskState.PENDING ∨
        t.state_ = TaskState.RUNNING) →
      ∃ w1 t1, Task.Cancel w id = some w1 ∧ w1.heap id = some t1 ∧
        t1.state_ = TaskState.CANCELED) ∧
    ((t.state_ = TaskState.COMPLETED ∨ t.state_ = TaskState.FAILED ∨
        t.state_ = TaskState.CANCELED) →
      Task.Cancel w id = some w) ∧
    (Task.Cancel w id).bind (fun w1 => Task.Cancel w1 id) = Task.Cancel w id := by
  have hlive : ∀ w0 : World m, ∀ t0 : Task m, w0.heap id = some t0 →
      (t0.state_ = TaskState.IDLE ∨ t0.state_ = TaskState.PENDING ∨
        t0.state_ = TaskState.RUNNING) →
      Task.Cancel w0 id =
        some (Task.NotifySubscribers w0 id { t0 with state_ := TaskState.CANCELED }) := by
    intro w0 t0 h0 hs
    unfold Task.Cancel
    rw [h0]
    rcases hs with hs | hs | hs <;> simp [hs]
  have hdead : ∀ w0 : World m, ∀ t0 : Task m, w0.heap id = some t0 →
      (t0.state_ = TaskState.COMPLETED ∨ t0.state_ = TaskState.FAILED ∨
        t0.state_ = TaskState.CANCELED) →
      Task.Cancel w0 id = some w0 := by
    intro w0 t0 h0 hs
    unfold Task.Cancel
    rw [h0]
    rcases hs with hs | hs | hs <;> simp [hs]
  refine ⟨?_, hdead w t hid, ?_⟩
  · intro hs
    exact ⟨_, _, hlive w t hid hs, NotifySubscribers_heap_this w id _, rfl⟩
  · cases hs : t.state_
    case IDLE =>
      rw [hlive w t hid (Or.inl hs)]
      exact hdead _ _ (NotifySubscribers_heap_this w id _) (Or.inr (Or.inr rfl))
    case PENDING =>
      rw [hlive w t hid (Or.inr (Or.inl hs))]
      exact hdead _ _ (NotifySubscribers_heap_this w id _) (Or.inr (Or.inr rfl))
    case RUNNING =>
      rw [hlive w t hid (Or.inr (Or.inr hs))]
      exact hdead _ _ (NotifySubscribers_heap_this w id _) (Or.inr (Or.inr rfl))
    case COMPLETED =>
      rw [hdead w t hid (Or.inl hs)]
      exact hdead w t hid (Or.inl hs)
    case FAILED =>
      rw [hdead w t hid (Or.inr (Or.inl hs))]
      exact hdead w t hid (Or.inr (Or.inl hs))
    case CANCELED =>
      rw [hdead w t hid (Or.inr (Or.inr hs))]
      exact hdead w t hid (Or.inr (Or.inr hs))

/-- C9, at a freshly constructed (IDLE) task: it ends CANCELED. -/
theorem Cancel_spec_witness :
    ∃ w1 t1, Task.Cancel oneTaskWorld 0 = some w1 ∧ w1.heap 0 = some t1 ∧
      t1.state_ = TaskState.CANCELED :=
  (Cancel_spec oneTaskWorld 0 {} rfl).1 (Or.inl rfl)

/-! ## What a result of the readiness check implies, with or without expired pointers -/

/-- A call of `IsFinished` that returns gives the value of `Task.IsFinished`. -/
theorem Task.IsFinishedCall_eq_some (t : Task m) (b : Bool) (hcall : t.IsFinishedCall = some b) :
    m = Relock.returns ∧ t.IsFinished = b := by
  unfold Task.IsFinishedCall at hcall
  split at hcall
  · next hm => exact ⟨hm, Option.some.inj hcall⟩
  · cases hcall

theorem anyOfFinished_true (h : Heap m) (ps : List TaskId)
    (htrue : anyOfFinished h ps = some true) :
    ∃ p ∈ ps, ∃ u, h p = some u ∧ u.IsFinished = true := by
  induction ps with
  | nil => simp [anyOfFinished] at htrue
  | cons p ps ih =>
    cases hp : h p with
    | none => simp [anyOfFinished, hp] at htrue
    | some u =>
      cases hc : u.IsFinishedCall with
      | none => simp [anyOfFinished, hp, hc] at htrue
      | some c =>
        have hfin := (Task.IsFinishedCall_eq_some u c hc).2
        cases c with
        | true => exact ⟨p, List.mem_cons_self p ps, u, hp, hfin⟩
        | false =>
          simp only [anyOfFinished, hp, hc] at htrue
          obtain ⟨q, hq, v, hv, hvf⟩ := ih htrue
          exact ⟨q, List.mem_cons_of_mem p hq, v, hv, hvf⟩

theorem allOfFinished_true (h : Heap m) (ps : List TaskId)
    (htrue : allOfFinished h ps = some true) :
    ∀ p ∈ ps, ∃ u, h p = some u ∧ u.IsFinished = true := by
  induction ps with
  | nil => simp
  | cons p ps ih =>
    cases hp : h p with
    | none => simp [allOfFinished, hp] at htrue
    | some u =>
      cases hc : u.IsFinishedCall with
      | none => simp [allOfFinished, hp, hc] at htrue
      | some c =>
        have hfin := (Task.IsFinishedCall_eq_some u c hc).2
        cases c with
        | true =>
          simp only [allOfFinished, hp, hc] at htrue
          intro q hq
          rcases List.mem_cons.mp hq with rfl | hq
          · exact ⟨u, hp, hfin⟩
          · exact ih htrue q hq
        | false => simp [allOfFinished, hp, hc] at htrue

theorem anyOfFinished_false (h : Heap m) (ps : List TaskId)
    (hfalse : anyOfFinished h ps = some false) :
    ∀ p ∈ ps, ∃ u, h p = some u ∧ u.IsFinished = false := by
  induction ps with
  | nil => simp
  | cons p ps ih =>
    cases hp : h p with
    | none => simp [anyOfFinished, hp] at hfalse
    | some u =>
      cases hc : u.IsFinishedCall with
      | none => simp [anyOfFinished, hp, hc] at hfalse
      | some c =>
        have hfin := (Task.IsFinishedCall_eq_some u c hc).2
        cases c with
        | true => simp [anyOfFinished, hp, hc] at hfalse
        | false =>
          simp only [anyOfFinished, hp, hc] at hfalse
          intro q hq
          rcases List.mem_cons.mp hq with rfl | hq
          · exact ⟨u, hp, hfin⟩
          · exact ih hfalse q hq

theorem allOfFinished_false (h : Heap m) (ps : List TaskId)
    (hfalse : allOfFinished h ps = some false) :
    ∃ p ∈ ps, ∃ u, h p = some u ∧ u.IsFinished = false := by
  induction ps with
  | nil => simp [allOfFinished] at hfalse
  | cons p ps ih =>
    cases hp : h p with
    | none => simp [allOfFinished, hp] at hfalse
    | some u =>
      cases hc : u.IsFinishedCall with
      | none => simp [allOfFinished, hp, hc] at hfalse
      | some c =>
        have hfin := (Task.IsFinishedCall_eq_some u c hc).2
        cases c with
        | true =>
          simp only [allOfFinished, hp, hc] at hfalse
          obtain ⟨q, hq, v, hv, hvf⟩ := ih hfalse
          exact ⟨q, List.mem_cons_of_mem p hq, v, hv, hvf⟩
        | false => exact ⟨p, List.mem_cons_self p ps, u, hp, hfin⟩

theorem CanBeExecuted_true (h : Heap m) (now : TimePoint) (t : Task m)
    (htrue : t.CanBeExecuted h now = some true) (hdeps : t.dependencies_ ≠ []) :
    (∀ d ∈ t.dependencies_, ∃ u, h d = some u ∧ u.IsFinished = true) ∨
    (∃ g ∈ t.triggers_, ∃ u, h g = some u ∧ u.IsFinished = true) ∨
    (∃ tp, t.time_trigger_ = some tp ∧ tp ≤ now) := by
  have hD : t.dependencies_.isEmpty = false := by
    cases hd : t.dependencies_ with
    | nil => exact absurd hd hdeps
    | cons d ds => rfl
  unfold Task.CanBeExecuted at htrue
  simp only [hD, Bool.and_false, Bool.false_and, Bool.false_eq_true, if_false] at htrue
  split at htrue
  · cases hany : anyOfFinished h t.triggers_ with
    | none => simp [hany] at htrue
    | some bg =>
      cases bg with
      | true => exact Or.inr (Or.inl (anyOfFinished_true h _ hany))
      | false =>
        cases hall : allOfFinished h t.dependencies_ with
        | none => simp [hany, hall] at htrue
        | some bd =>
          cases bd with
          | true => exact Or.inl (allOfFinished_true h _ hall)
          | false => simp [hany, hall] at htrue
  · next hnot =>
    cases htt : t.time_trigger_ with
    | none => simp [htt] at hnot
    | some tp =>
      simp only [htt, decide_eq_true_eq] at hnot
      exact Or.inr (Or.inr ⟨tp, rfl, Nat.le_of_not_lt hnot⟩)

/-! ## Which step can start a `Run` -/

theorem NotifySubscribers_running (w : World m) (id x : TaskId) (t : Task m)
    (hrun : (Task.NotifySubscribers w id t).stateOf x = some TaskState.RUNNING) :
    (x ≠ id ∧ w.stateOf x = some TaskState.RUNNING) ∨
      (x = id ∧ t.state_ = TaskState.RUNNING) := by
  unfold Task.NotifySubscribers at hrun
  rcases NotifyLoop_state id t.subscribers_ (w.setTask id { t with subscribers_ := [] }) x
    with h1 | h1
  · rw [h1] at hrun
    by_cases hx : x = id
    · subst hx
      right
      simpa [World.stateOf, World.setTask] using hrun
    · left
      refine ⟨hx, ?_⟩
      simpa [World.stateOf, World.setTask, Function.update_noteq hx] using hrun
  · rw [h1] at hrun
    cases hrun

theorem Cancel_frame (w w1 : World m) (id : TaskId) (hc : Task.Cancel w id = some w1) :
    w1.phase = w.phase ∧ w1.runs = w.runs ∧
      (∀ x, w1.stateOf x = some TaskState.RUNNING → w.stateOf x = some TaskState.RUNNING) := by
  unfold Task.Cancel at hc
  split at hc
  · cases hc
  · next t ht =>
    have key : ∀ w2 : World m,
        w2 = Task.NotifySubscribers w id { t with state_ := TaskState.CANCELED } →
        w2.phase = w.phase ∧ w2.runs = w.runs ∧
          (∀ x, w2.stateOf x = some TaskState.RUNNING →
            w.stateOf x = some TaskState.RUNNING) := by
      intro w2 h2
      subst h2
      obtain ⟨g1, g2, -⟩ := NotifySubscribers_frame w id { t with state_ := TaskState.CANCELED }
      refine ⟨g1, g2, ?_⟩
      intro x hx
      rcases NotifySubscribers_running w id x _ hx with ⟨-, h⟩ | ⟨-, h⟩
      · exact h
      · cases h
    split at hc <;> cases hc <;> first | exact key _ rfl | exact ⟨rfl, rfl, fun _ h => h⟩

theorem Complete_frame (w w1 : World m) (id : TaskId) (hc : Task.Complete w id = some w1) :
    w1.phase = w.phase ∧ w1.runs = w.runs ∧
      (∀ x, w1.stateOf x = some TaskState.RUNNING → w.stateOf x = some TaskState.RUNNING) := by
  unfold Task.Complete at hc
  split at hc
  · cases hc
  · next t ht =>
    cases hc
    obtain ⟨g1, g2, -⟩ := NotifySubscribers_frame w id { t with state_ := TaskState.COMPLETED }
    refine ⟨g1, g2, ?_⟩
    intro x hx
    rcases NotifySubscribers_running w id x _ hx with ⟨-, h⟩ | ⟨-, h⟩
    · exact h
    · cases h

theorem SetError_frame (w w1 : World m) (id : TaskId) (e : ExceptionPtr)
    (hc : Task.SetError w id e = some w1) :
    w1.phase = w.phase ∧ w1.runs = w.runs ∧
      (∀ x, w1.stateOf x = some TaskState.RUNNING → w.stateOf x = some TaskState.RUNNING) := by
  unfold Task.SetError at hc
  split at hc
  · cases hc
  · next t ht =>
    cases hc
    obtain ⟨g1, g2, -⟩ := NotifySubscribers_frame w id
      { t with state_ := TaskState.FAILED, error_ := e }
    refine ⟨g1, g2, ?_⟩
    intro x hx
    rcases NotifySubscribers_running w id x _ hx with ⟨-, h⟩ | ⟨-, h⟩
    · exact h
    · cases h

/-- A `Submit` that returns either changed nothing or ran past `IsFinished`. -/
theorem Submit_eq_some (w w1 : World m) (id : TaskId) (hc : Executor.Submit w id = some w1) :
    ∃ task, w.heap id = some task ∧
      (w1 = w ∨ ∃ hm : m = Relock.returns, w1 = Executor.SubmitThrough w id task hm) := by
  unfold Executor.Submit at hc
  split at hc
  · cases hc
  · next t ht =>
    refine ⟨t, ht, ?_⟩
    cases hfl : w.exec.is_finished_
    · by_cases hm : m = Relock.returns
      · rw [(SubmitTask_eq w id t).2.2 hm] at hc
        exact Or.inr ⟨hm, (Option.some.inj hc).symm⟩
      · rw [(SubmitTask_eq w id t).2.1 hfl (Relock.blocks_of_ne_returns m hm)] at hc
        cases hc
    · rw [(SubmitTask_eq w id t).1 hfl] at hc
      exact Or.inl (Option.some.inj hc).symm

theorem Submit_preserves (w w1 : World m) (id x : TaskId) (tx : Task m)
    (hc : Executor.Submit w id = some w1) (hx : w.heap x = some tx)
    (hfin : tx.IsFinished = true) : w1.heap x = some tx := by
  obtain ⟨task, hid, rfl | ⟨hm, rfl⟩⟩ := Submit_eq_some w w1 id hc
  · exact hx
  · exact SubmitThrough_preserves w id x task tx hm hid hx hfin

theorem Submit_frame (w w1 : World m) (id : TaskId) (hc : Executor.Submit w id = some w1) :
    w1.phase = w.phase ∧ w1.runs = w.runs ∧
      (∀ x, w1.stateOf x = some TaskState.RUNNING → w.stateOf x = some TaskState.RUNNING) := by
  obtain ⟨t, ht, rfl | ⟨hm, rfl⟩⟩ := Submit_eq_some w w1 id hc
  · exact ⟨rfl, rfl, fun x hx => hx⟩
  · obtain ⟨g1, g2, -⟩ := SubmitThrough_frame w id t hm
    refine ⟨g1, g2, ?_⟩
    intro x hx
    rcases SubmitThrough_state w id x t hm ht with h | h
    · rw [← h]; exact hx
    · rw [h] at hx; cases hx

theorem RunWorkerPop_frame (w w1 : World m) (wk : Nat) (now : TimePoint)
    (hc : Executor.RunWorkerPop w wk now = some w1) :
    w1.heap = w.heap ∧ w1.runs = w.runs ∧ ∀ k, k ≠ wk → w1.phase k = w.phase k := by
  unfold Executor.RunWorkerPop at hc
  split at hc
  · split at hc
    · cases hc
      exact ⟨rfl, rfl, fun k hk => by simp [World.setPhase, Function.update_noteq hk]⟩
    · split at hc
      · cases hc
        exact ⟨rfl, rfl, fun _ _ => rfl⟩
      · split at hc
        · cases hc
        · split at hc
          · cases hc
          · split at hc <;> cases hc <;> exact ⟨rfl, rfl, fun _ _ => rfl⟩
          · cases hc
            exact ⟨rfl, rfl, fun k hk => by simp [World.setPhase, Function.update_noteq hk]⟩
  · cases hc
    exact ⟨rfl, rfl, fun _ _ => rfl⟩

theorem RunWorkerFinish_frame (w w1 : World m) (wk : Nat) (thrown : Option Nat)
    (hc : Executor.RunWorkerFinish w wk thrown = some w1) :
    w1.runs = w.runs ∧
      (∀ x, w1.stateOf x = some TaskState.RUNNING → w.stateOf x = some TaskState.RUNNING) ∧
      (∀ k, k ≠ wk → w1.phase k = w.phase k) ∧
      (w1.phase wk = w.phase wk ∨ w1.phase wk = WorkerPhase.waiting) := by
  unfold Executor.RunWorkerFinish at hc
  split at hc
  · next id hph =>
    split at hc
    · cases hcomp : Task.Complete w id with
      | none => simp [hcomp] at hc
      | some w2 =>
        simp only [hcomp, Option.map_some', Option.some.injEq] at hc
        subst hc
        obtain ⟨g1, g2, g3⟩ := Complete_frame w w2 id hcomp
        exact ⟨g2, g3, fun k hk => by simp [World.setPhase, Function.update_noteq hk, g1],
          Or.inr (by simp [World.setPhase])⟩
    · next e =>
      cases hcomp : Task.SetError w id (some e) with
      | none => simp [hcomp] at hc
      | some w2 =>
        simp only [hcomp, Option.map_some', Option.some.injEq] at hc
        subst hc
        obtain ⟨g1, g2, g3⟩ := SetError_frame w w2 id (some e) hcomp
        exact ⟨g2, g3, fun k hk => by simp [World.setPhase, Function.update_noteq hk, g1],
          Or.inr (by simp [World.setPhase])⟩
  · cases hc
    exact ⟨rfl, fun _ h => h, fun _ _ => rfl, Or.inl rfl⟩

theorem RunWorkerCapture_cases (w w1 : World m) (wk : Nat)
    (hc : Executor.RunWorkerCapture w wk = some w1) :
    (∃ id task, w.phase wk = WorkerPhase.ready id ∧ w.heap id = some task ∧
        task.state_ = TaskState.PENDING ∧
        w1.heap = Function.update w.heap id (some { task with state_ := TaskState.RUNNING }) ∧
        w1.phase = Function.update w.phase wk (WorkerPhase.running id) ∧
        w1.runs = Function.update w.runs id (w.runs id + 1) ∧ w1.exec = w.exec) ∨
    (∃ id task, w.phase wk = WorkerPhase.ready id ∧ w.heap id = some task ∧
        task.state_ ≠ TaskState.PENDING ∧ w1 = w.setPhase wk WorkerPhase.waiting) ∨
    ((∀ id, w.phase wk ≠ WorkerPhase.ready id) ∧ w1 = w) := by
  unfold Executor.RunWorkerCapture at hc
  split at hc
  · next id hph =>
    split at hc
    · cases hc
    · next task ht =>
      by_cases hs : task.state_ = TaskState.PENDING
      · left
        have h1 : task.Capture = (true, { task with state_ := TaskState.RUNNING }) := by
          simp [Task.Capture, hs]
        simp only [h1, if_true, Option.some.injEq] at hc
        subst hc
        exact ⟨id, task, hph, ht, hs, rfl, rfl, rfl, rfl⟩
      · right
        left
        have h1 : task.Capture.1 = false := by
          cases hst : task.state_ <;> simp_all [Task.Capture]
        simp only [h1, Bool.false_eq_true, if_false, Option.some.injEq] at hc
        exact ⟨id, task, hph, ht, hs, hc.symm⟩
  · next hne =>
    cases hc
    exact Or.inr (Or.inr ⟨fun id h => hne id h, rfl⟩)

theorem RunWorkerPop_ready (w w1 : World m) (wk : Nat) (now : TimePoint) (id : TaskId)
    (hc : Executor.RunWorkerPop w wk now = some w1)
    (hready : w1.phase wk = WorkerPhase.ready id) (hnot : w.phase wk ≠ WorkerPhase.ready id) :
    ∃ task rest, w.exec.tasks_ = id :: rest ∧ w.heap id = some task ∧
      task.CanBeExecuted w.heap now = some true := by
  unfold Executor.RunWorkerPop at hc
  split at hc
  · split at hc
    · cases hc
      simp [World.setPhase] at hready
    · split at hc
      · cases hc
        exact absurd hready hnot
      · next id0 rest hq =>
        split at hc
        · cases hc
        · next task ht =>
          split at hc
          · cases hc
          · split at hc <;> cases hc <;> exact absurd hready hnot
          · next hcan =>
            cases hc
            simp only [World.setPhase, Function.update_same, WorkerPhase.ready.injEq] at hready
            subst hready
            exact ⟨task, rest, hq, ht, hcan⟩
  · cases hc
    exact absurd hready hnot

/-- C5. In every step of the system, (a) the `Run` of a task is invoked, and the task turns
RUNNING, only in the capture section of a worker that stands after a successful readiness check
with that task in hand, and (b) a worker gets there only through its own pop section, in which
the task was at the front of the queue and `CanBeExecuted` returned true; for a task with a
non-empty dependency list this means that at that check every dependency was finished, or some
trigger was finished, or the time trigger was set and had elapsed. -/
theorem RunWorker_runs_only_ready :
    (∀ (w w1 : World m) (a : Action) (id : TaskId), w.step a = some w1 →
      (w1.runs id ≠ w.runs id ∨
        (w1.stateOf id = some TaskState.RUNNING ∧ w.stateOf id ≠ some TaskState.RUNNING)) →
      ∃ wk, a = Action.Capture wk ∧ w.phase wk = WorkerPhase.ready id) ∧
    (∀ (w w1 : World m) (a : Action) (wk : Nat) (id : TaskId), w.step a = some w1 →
      w1.phase wk = WorkerPhase.ready id → w.phase wk ≠ WorkerPhase.ready id →
      ∃ now task rest, a = Action.Pop wk now ∧ w.exec.tasks_ = id :: rest ∧
        w.heap id = some task ∧ task.CanBeExecuted w.heap now = some true ∧
        (task.dependencies_ ≠ [] →
          (∀ d ∈ task.dependencies_, ∃ u, w.heap d = some u ∧
            (u.state_ = TaskState.COMPLETED ∨ u.state_ = TaskState.FAILED ∨
              u.state_ = TaskState.CANCELED)) ∨
          (∃ g ∈ task.triggers_, ∃ u, w.heap g = some u ∧
            (u.state_ = TaskState.COMPLETED ∨ u.state_ = TaskState.FAILED ∨
              u.state_ = TaskState.CANCELED)) ∨
          (∃ tp, task.time_trigger_ = some tp ∧ tp ≤ now))) := by
  constructor
  · intro w w1 a id hstep hchange
    have same : w1.runs = w.runs →
        (∀ x, w1.stateOf x = some TaskState.RUNNING → w.stateOf x = some TaskState.RUNNING) →
        False := by
      intro hr hs
      rcases hchange with h | ⟨h1, h2⟩
      · exact h (by rw [hr])
      · exact h2 (hs id h1)
    cases a with
    | Submit t =>
      obtain ⟨-, g2, g3⟩ := Submit_frame w w1 t hstep
      exact (same g2 g3).elim
    | Cancel t =>
      obtain ⟨-, g2, g3⟩ := Cancel_frame w w1 t hstep
      exact (same g2 g3).elim
    | Pop wk now =>
      simp only [World.step] at hstep
      split at hstep
      · obtain ⟨g1, g2, -⟩ := RunWorkerPop_frame w w1 wk now hstep
        exact (same g2 (fun x hx => by simpa [World.stateOf, g1] using hx)).elim
      · cases hstep
        exact (same rfl (fun _ h => h)).elim
    | Capture wk =>
      simp only [World.step] at hstep
      split at hstep
      · rcases RunWorkerCapture_cases w w1 wk hstep with
          ⟨id0, task, hph, ht, hs, hheap, -, hruns, -⟩ | ⟨id0, task, -, -, -, rfl⟩ | ⟨-, rfl⟩
        · by_cases hid : id = id0
          · subst hid
            exact ⟨wk, rfl, hph⟩
          · refine (same ?_ ?_).elim
            · exfalso
              rcases hchange with h | ⟨h1, h2⟩
              · exact h (by rw [hruns, Function.update_noteq hid])
              · exact h2 (by
                  simpa [World.stateOf, hheap, Function.update_noteq hid] using h1)
            · intro x hx
              exfalso
              rcases hchange with h | ⟨h1, h2⟩
              · exact h (by rw [hruns, Function.update_noteq hid])
              · exact h2 (by
                  simpa [World.stateOf, hheap, Function.update_noteq hid] using h1)
        · exact (same rfl (fun _ h => h)).elim
        · exact (same rfl (fun _ h => h)).elim
      · cases hstep
        exact (same rfl (fun _ h => h)).elim
    | Return wk =>
      simp only [World.step] at hstep
      split at hstep
      · obtain ⟨g1, g2, -⟩ := RunWorkerFinish_frame w w1 wk none hstep
        exact (same g1 g2).elim
      · cases hstep
        exact (same rfl (fun _ h => h)).elim
    | Throw wk e =>
      simp only [World.step] at hstep
      split at hstep
      · obtain ⟨g1, g2, -⟩ := RunWorkerFinish_frame w w1 wk (some e) hstep
        exact (same g1 g2).elim
      · cases hstep
        exact (same rfl (fun _ h => h)).elim
    | StartShutdown =>
      simp only [World.step, Option.some.injEq] at hstep
      subst hstep
      exact (same rfl (fun _ h => h)).elim
  · intro w w1 a wk id hstep hready hnot
    have same : w1.phase wk = w.phase wk → False := fun h => hnot (h ▸ hready)
    cases a with
    | Submit t =>
      obtain ⟨g1, -⟩ := Submit_frame w w1 t hstep
      exact (same (by rw [g1])).elim
    | Cancel t =>
      obtain ⟨g1, -⟩ := Cancel_frame w w1 t hstep
      exact (same (by rw [g1])).elim
    | Pop k now =>
      simp only [World.step] at hstep
      split at hstep
      · by_cases hk : wk = k
        · subst hk
          obtain ⟨task, rest, hq, ht, hcan⟩ := RunWorkerPop_ready w w1 wk now id hstep hready hnot
          refine ⟨now, task, rest, rfl, hq, ht, hcan, ?_⟩
          intro hdeps
          have := CanBeExecuted_true w.heap now task hcan hdeps
          simpa only [Task.IsFinished_iff] using this
        · obtain ⟨-, -, g3⟩ := RunWorkerPop_frame w w1 k now hstep
          exact (same (g3 wk hk)).elim
      · cases hstep
        exact (same rfl).elim
    | Capture k =>
      simp only [World.step] at hstep
      split at hstep
      · rcases RunWorkerCapture_cases w w1 k hstep with
          ⟨id0, task, hph, -, -, -, hphase, -, -⟩ | ⟨id0, task, hph, -, -, rfl⟩ | ⟨-, rfl⟩
        · by_cases hk : wk = k
          · subst hk
            rw [hphase] at hready
            simp at hready
          · exact (same (by rw [hphase, Function.update_noteq hk])).elim
        · by_cases hk : wk = k
          · subst hk
            simp [World.setPhase] at hready
          · exact (same (by simp [World.setPhase, Function.update_noteq hk])).elim
        · exact (same rfl).elim
      · cases hstep
        exact (same rfl).elim
    | Return k =>
      simp only [World.step] at hstep
      split at hstep
      · obtain ⟨-, -, g3, g4⟩ := RunWorkerFinish_frame w w1 k none hstep
        by_cases hk : wk = k
        · subst hk
          rcases g4 with h | h
          · exact (same h).elim
          · rw [h] at hready
            cases hready
        · exact (same (g3 wk hk)).elim
      · cases hstep
        exact (same rfl).elim
    | Throw k e =>
      simp only [World.step] at hstep
      split at hstep
      · obtain ⟨-, -, g3, g4⟩ := RunWorkerFinish_frame w w1 k (some e) hstep
        by_cases hk : wk = k
        · subst hk
          rcases g4 with h | h
          · exact (same h).elim
          · rw [h] at hready
            cases hready
        · exact (same (g3 wk hk)).elim
      · cases hstep
        exact (same rfl).elim
    | StartShutdown =>
      simp only [World.step, Option.some.injEq] at hstep
      subst hstep
      exact (same rfl).elim

/-! ## Calls that leave a finished task finished -/

theorem Cancel_of_live (w : World m) (id : TaskId) (t : Task m) (hid : w.heap id = some t)
    (hs : t.IsFinished = false) :
    Task.Cancel w id =
      some (Task.NotifySubscribers w id { t with state_ := TaskState.CANCELED }) := by
  unfold Task.Cancel
  rw [hid]
  rcases (Task.IsFinished_eq_false_iff t).mp hs with hs | hs | hs <;> simp [hs]

theorem Cancel_of_finished (w : World m) (id : TaskId) (t : Task m) (hid : w.heap id = some t)
    (hs : t.IsFinished = true) : Task.Cancel w id = some w := by
  unfold Task.Cancel
  rw [hid]
  rcases (Task.IsFinished_iff t).mp hs with hs | hs | hs <;> simp [hs]

theorem Cancel_preserves (w w1 : World m) (id x : TaskId) (tx : Task m)
    (hc : Task.Cancel w id = some w1) (hx : w.heap x = some tx) (hfin : tx.IsFinished = true) :
    w1.heap x = some tx := by
  cases hid : w.heap id with
  | none => simp [Task.Cancel, hid] at hc
  | some t =>
    cases hf : t.IsFinished with
    | true =>
      rw [Cancel_of_finished w id t hid hf] at hc
      cases hc
      exact hx
    | false =>
      rw [Cancel_of_live w id t hid hf] at hc
      cases hc
      have hne : x ≠ id := by
        rintro rfl
        rw [hid] at hx
        cases hx
        rw [hf] at hfin
        cases hfin
      exact NotifySubscribers_preserves w id x _ tx hne hx hfin

theorem Complete_preserves (w w1 : World m) (id x : TaskId) (tx : Task m) (hne : x ≠ id)
    (hc : Task.Complete w id = some w1) (hx : w.heap x = some tx)
    (hfin : tx.IsFinished = true) : w1.heap x = some tx := by
  unfold Task.Complete at hc
  split at hc
  · cases hc
  · cases hc
    exact NotifySubscribers_preserves w id x _ tx hne hx hfin

theorem SetError_preserves (w w1 : World m) (id x : TaskId) (e : ExceptionPtr) (tx : Task m)
    (hne : x ≠ id) (hc : Task.SetError w id e = some w1) (hx : w.heap x = some tx)
    (hfin : tx.IsFinished = true) : w1.heap x = some tx := by
  unfold Task.SetError at hc
  split at hc
  · cases hc
  · cases hc
    exact NotifySubscribers_preserves w id x _ tx hne hx hfin

theorem Complete_finished (w w1 : World m) (id x : TaskId) (tx : Task m)
    (hc : Task.Complete w id = some w1) (hx : w.heap x = some tx)
    (hfin : tx.IsFinished = true) : ∃ tx1, w1.heap x = some tx1 ∧ tx1.IsFinished = true := by
  by_cases hne : x = id
  · subst hne
    unfold Task.Complete at hc
    rw [hx] at hc
    cases hc
    exact ⟨_, NotifySubscribers_heap_this w x _, rfl⟩
  · exact ⟨tx, Complete_preserves w w1 id x tx hne hc hx hfin, hfin⟩

theorem SetError_finished (w w1 : World m) (id x : TaskId) (e : ExceptionPtr) (tx : Task m)
    (hc : Task.SetError w id e = some w1) (hx : w.heap x = some tx)
    (hfin : tx.IsFinished = true) : ∃ tx1, w1.heap x = some tx1 ∧ tx1.IsFinished = true := by
  by_cases hne : x = id
  · subst hne
    unfold Task.SetError at hc
    rw [hx] at hc
    cases hc
    exact ⟨_, NotifySubscribers_heap_this w x _, rfl⟩
  · exact ⟨tx, SetError_preserves w w1 id x e tx hne hc hx hfin, hfin⟩

/-! ## The end of a `Run` -/

theorem NotifyLoop_cons_self (this : TaskId) (subs : List TaskId) (w : World m) :
    Task.NotifyLoop this (this :: subs) w = Task.NotifyLoop this subs w := by
  rw [Task.NotifyLoop]
  split <;> simp

theorem Notify_congr (this sub : TaskId) (task : Task m) (w v : World m) (hexec : w.exec = v.exec)
    (hheap : ∀ x, x ≠ this → w.heap x = v.heap x) :
    (Task.Notify w sub task).exec = (Task.Notify v sub task).exec ∧
      ∀ x, x ≠ this → (Task.Notify w sub task).heap x = (Task.Notify v sub task).heap x := by
  unfold Task.Notify
  split
  · split
    · unfold Executor.SubmitThrough Executor.SubmitBodyOn
      rw [hexec]
      split
      · refine ⟨rfl, ?_⟩
        intro x hx
        by_cases hxs : x = sub
        · subst hxs
          simp
        · simp [Function.update_noteq hxs, hheap x hx]
      · exact ⟨hexec, hheap⟩
    · exact ⟨hexec, hheap⟩
  · exact ⟨hexec, hheap⟩

theorem NotifyLoop_congr (this : TaskId) (subs : List TaskId) (w v : World m)
    (hexec : w.exec = v.exec) (hheap : ∀ x, x ≠ this → w.heap x = v.heap x) :
    (Task.NotifyLoop this subs w).exec = (Task.NotifyLoop this subs v).exec := by
  induction subs generalizing w v with
  | nil => exact hexec
  | cons sub subs ih =>
    by_cases hsub : this = sub
    · subst hsub
      rw [NotifyLoop_cons_self, NotifyLoop_cons_self]
      exact ih w v hexec hheap
    · have hs : w.heap sub = v.heap sub := hheap sub (fun h => hsub h.symm)
      rw [Task.NotifyLoop, Task.NotifyLoop]
      cases hw : w.heap sub with
      | none =>
        rw [hw] at hs
        simp only [← hs]
        exact ih w v hexec hheap
      | some task =>
        rw [hw] at hs
        simp only [← hs, ne_eq, hsub, not_false_eq_true, if_true]
        obtain ⟨g1, g2⟩ := Notify_congr this sub task w v hexec hheap
        exact ih _ _ g1 g2

/-- One `Run` with no other step in between and no error stored before: a worker that holds a
PENDING task with no stored error captures it and invokes its `Run`.  If `Run` returns
normally the task ends COMPLETED and `GetError` returns the null pointer; if `Run` throws `e`
the task ends FAILED and `GetError` returns `e`.  In both cases the worker is back at the top
of its loop, the finished flag is what it was and nothing was removed from the queue. -/
theorem RunWorker_single_Run (w : World m) (wk : Nat) (id : TaskId) (task : Task m)
    (hph : w.phase wk = WorkerPhase.ready id) (ht : w.heap id = some task)
    (hs : task.state_ = TaskState.PENDING) (herr : task.error_ = none) :
    ∃ w1, Executor.RunWorkerCapture w wk = some w1 ∧
      w1.stateOf id = some TaskState.RUNNING ∧ w1.runs id = w.runs id + 1 ∧
      ∃ w2 t2, Executor.RunWorkerFinish w1 wk none = some w2 ∧ w2.heap id = some t2 ∧
        t2.state_ = TaskState.COMPLETED ∧ t2.GetError = none ∧
        w2.phase wk = WorkerPhase.waiting ∧
        w2.exec.is_finished_ = w.exec.is_finished_ ∧ w.exec.tasks_ <+: w2.exec.tasks_ ∧
        ∀ e, ∃ w3 t3, Executor.RunWorkerFinish w1 wk (some e) = some w3 ∧
          w3.heap id = some t3 ∧ t3.state_ = TaskState.FAILED ∧ t3.GetError = some e ∧
          w3.phase wk = WorkerPhase.waiting ∧ w3.exec = w2.exec := by
  have hcap : task.Capture = (true, { task with state_ := TaskState.RUNNING }) := by
    simp [Task.Capture, hs]
  have h1 : Executor.RunWorkerCapture w wk = some
      { w with
        heap := Function.update w.heap id (some { task with state_ := TaskState.RUNNING })
        phase := Function.update w.phase wk (WorkerPhase.running id)
        runs := Function.update w.runs id (w.runs id + 1) } := by
    simp [Executor.RunWorkerCapture, hph, ht, hcap]
  refine ⟨_, h1, by simp [World.stateOf], by simp, ?_⟩
  generalize hw1 : ({ w with
        heap := Function.update w.heap id (some { task with state_ := TaskState.RUNNING })
        phase := Function.update w.phase wk (WorkerPhase.running id)
        runs := Function.update w.runs id (w.runs id + 1) } : World m) = w1
  have hph1 : w1.phase wk = WorkerPhase.running id := by simp [← hw1]
  have ht1 : w1.heap id = some { task with state_ := TaskState.RUNNING } := by simp [← hw1]
  have hex1 : w1.exec = w.exec := by simp [← hw1]
  have hret : Executor.RunWorkerFinish w1 wk none = some
      ((Task.NotifySubscribers w1 id
        { task with state_ := TaskState.COMPLETED }).setPhase wk WorkerPhase.waiting) := by
    simp [Executor.RunWorkerFinish, hph1, Task.Complete, ht1]
  obtain ⟨-, -, g3, -, -, g6⟩ := NotifySubscribers_frame w1 id
    { task with state_ := TaskState.COMPLETED }
  refine ⟨_, { task with state_ := TaskState.COMPLETED, subscribers_ := [] }, hret, ?_, rfl, ?_,
    by simp [World.setPhase], ?_, ?_, ?_⟩
  · simp only [World.setPhase]
    exact NotifySubscribers_heap_this w1 id _
  · simpa [Task.GetError] using herr
  · simp only [World.setPhase]
    rw [g3, hex1]
  · simp only [World.setPhase]
    rw [← hex1]
    exact g6
  · intro e
    have hthrow : Executor.RunWorkerFinish w1 wk (some e) = some
        ((Task.NotifySubscribers w1 id
          { task with state_ := TaskState.FAILED, error_ := some e }).setPhase wk
            WorkerPhase.waiting) := by
      simp [Executor.RunWorkerFinish, hph1, Task.SetError, ht1]
    refine ⟨_, { task with state_ := TaskState.FAILED, error_ := some e, subscribers_ := [] },
      hthrow, ?_, rfl, rfl, by simp [World.setPhase], ?_⟩
    · simp only [World.setPhase]
      exact NotifySubscribers_heap_this w1 id _
    · simp only [World.setPhase, Task.NotifySubscribers]
      apply NotifyLoop_congr
      · rfl
      · intro x hx
        simp [World.setTask, Function.update_noteq hx]

/-! ## Traces on which the code leaves the specified behaviour -/

/-- C2. At-most-once execution does not hold: task 0 is submitted, worker 0 pops and captures
it (first `Run`, state RUNNING), a second `Submit` finds it RUNNING, calls `Pend` and queues it
again, and worker 1 pops and captures it while the first `Run` is still in progress: `Run` has
been invoked twice.  (A trace where locking again returns; where it never returns, no `Submit`
on a live executor returns.)  The two calls that reopen the gate do not depend on how locking
again behaves: `Pend` makes a RUNNING task PENDING, and `Capture` then returns true. -/
theorem Submit_while_running_runs_twice :
    (oneTaskWorld.run [Action.Submit 0, Action.Pop 0 0, Action.Capture 0]).map
        (fun w => (w.stateOf 0, w.runs 0, w.exec.tasks_)) =
      some (some TaskState.RUNNING, 1, []) ∧
    (oneTaskWorld.run [Action.Submit 0, Action.Pop 0 0, Action.Capture 0,
        Action.Submit 0]).map (fun w => (w.stateOf 0, w.runs 0, w.exec.tasks_)) =
      some (some TaskState.PENDING, 1, [0]) ∧
    (oneTaskWorld.run [Action.Submit 0, Action.Pop 0 0, Action.Capture 0,
        Action.Submit 0, Action.Pop 1 0, Action.Capture 1]).map
        (fun w => (w.stateOf 0, w.runs 0, w.phase 0, w.phase 1)) =
      some (some TaskState.RUNNING, 2, WorkerPhase.running 0, WorkerPhase.running 0) ∧
    (({ state_ := TaskState.RUNNING } : Task Relock.blocks).Pend.state_ = TaskState.PENDING ∧
      ({ state_ := TaskState.RUNNING } : Task Relock.blocks).Pend.Capture.1 = true) := by
  decide

/-- C3. Terminal states are not absorbing: task 0 is cancelled while RUNNING and is CANCELED;
when its `Run` then returns, `Complete` makes it COMPLETED, and when its `Run` throws,
`SetError` makes it FAILED.  The overwrite needs no `Submit`: also where locking again never
returns, `Cancel` makes a fresh task CANCELED, and `Complete` (`SetError`) after it makes the
task COMPLETED (FAILED). -/
theorem Complete_after_Cancel_overwrites :
    (oneTaskWorld.run [Action.Submit 0, Action.Pop 0 0, Action.Capture 0,
        Action.Cancel 0]).bind (fun w => w.stateOf 0) = some TaskState.CANCELED ∧
    (oneTaskWorld.run [Action.Submit 0, Action.Pop 0 0, Action.Capture 0,
        Action.Cancel 0, Action.Return 0]).bind (fun w => w.stateOf 0) =
      some TaskState.COMPLETED ∧
    (oneTaskWorld.run [Action.Submit 0, Action.Pop 0 0, Action.Capture 0,
        Action.Cancel 0, Action.Throw 0 7]).bind (fun w => w.stateOf 0) =
      some TaskState.FAILED ∧
    ((freshTaskWorld Relock.blocks).applyAll [TaskOp.Cancel 0]).bind (fun w => w.stateOf 0) =
      some TaskState.CANCELED ∧
    ((freshTaskWorld Relock.blocks).applyAll [TaskOp.Cancel 0, TaskOp.Complete 0]).bind
        (fun w => w.stateOf 0) = some TaskState.COMPLETED ∧
    ((freshTaskWorld Relock.blocks).applyAll [TaskOp.Cancel 0,
        TaskOp.SetError 0 (some 7)]).bind (fun w => w.stateOf 0) = some TaskState.FAILED := by
  decide

/-- C10. The outcome of a `Run` is not always what the task ends with.  Task 0 is submitted
again while worker 0 runs it (the second `Submit` of C2), and worker 1 captures it too; the
task is never cancelled.  When the `Run` of worker 0 throws 7 and then the `Run` of worker 1
returns normally, the task ends COMPLETED and `GetError` returns 7.  When the `Run` of worker 0
returns normally and then the `Run` of worker 1 throws 7, the task, COMPLETED in between, ends
FAILED. -/
theorem Second_Run_mixes_outcomes :
    (oneTaskWorld.run [Action.Submit 0, Action.Pop 0 0, Action.Capture 0, Action.Submit 0,
        Action.Pop 1 0, Action.Capture 1, Action.Throw 0 7, Action.Return 1]).map
        (fun w => (w.stateOf 0, w.errorOf 0, w.runs 0)) =
      some (some TaskState.COMPLETED, some (some 7), 2) ∧
    (oneTaskWorld.run [Action.Submit 0, Action.Pop 0 0, Action.Capture 0, Action.Submit 0,
        Action.Pop 1 0, Action.Capture 1, Action.Return 0]).map
        (fun w => (w.stateOf 0, w.errorOf 0, w.runs 0)) =
      some (some TaskState.COMPLETED, some none, 2) ∧
    (oneTaskWorld.run [Action.Submit 0, Action.Pop 0 0, Action.Capture 0, Action.Submit 0,
        Action.Pop 1 0, Action.Capture 1, Action.Return 0, Action.Throw 1 7]).map
        (fun w => (w.stateOf 0, w.errorOf 0, w.runs 0)) =
      some (some TaskState.FAILED, some (some 7), 2) := by
  decide

/-- The test and the body of `Executor::Submit` on a live executor, where locking again
returns: the test is true exactly for an unfinished task, and the body makes any task PENDING,
finished or not. -/
theorem SubmitBody_pends (w : World Relock.returns) (id : TaskId) (task : Task Relock.returns)
    (hid : w.heap id = some task) (hfl : w.exec.is_finished_ = false) :
    Executor.SubmitCheck w id = some (!task.IsFinished) ∧
    ∃ w1, Executor.SubmitBody w id = some w1 ∧ w1.stateOf id = some TaskState.PENDING ∧
      w1.exec.tasks_ = w.exec.tasks_ ++ [id] := by
  refine ⟨by simp [Executor.SubmitCheck, hid, hfl, Task.IsFinishedCall], ?_⟩
  refine ⟨Executor.SubmitBodyOn w id task rfl, by simp [Executor.SubmitBody, hid], ?_, rfl⟩
  simp [Executor.SubmitBodyOn, World.stateOf, Task.Pend, Task.SetNotificationHandler]

/-- C6. Cancellation before capture is not always effective.  First trace: `Submit` tests
`IsFinished` and calls `Pend` under two separate acquisitions of the task's mutex.  Task 0,
IDLE, passes the test; `Cancel` makes it CANCELED; the body of `Submit` makes it PENDING and
queues it; worker 0 pops it, `Capture` returns true and `Run` is invoked.  Second trace: task 0
is submitted again while worker 0 runs it, so it is PENDING when `Cancel` is called; worker 1
pops it and drops it, and when the `Run` of worker 0 returns, `Complete` makes the CANCELED
task COMPLETED.  That `Pend` does not look at the state does not depend on how locking again
behaves: it makes a CANCELED task PENDING, and `Capture` then returns true. -/
theorem Cancel_before_capture_is_undone :
    Executor.SubmitCheck oneTaskWorld 0 = some true ∧
    (Task.Cancel oneTaskWorld 0).bind (fun w => w.stateOf 0) = some TaskState.CANCELED ∧
    canceledInsideSubmit.map (fun w => (w.stateOf 0, w.exec.tasks_)) =
      some (some TaskState.PENDING, [0]) ∧
    (canceledInsideSubmit.bind (fun w => w.run [Action.Pop 0 0, Action.Capture 0])).map
        (fun w => (w.stateOf 0, w.runs 0, w.phase 0)) =
      some (some TaskState.RUNNING, 1, WorkerPhase.running 0) ∧
    (oneTaskWorld.run [Action.Submit 0, Action.Pop 0 0, Action.Capture 0,
        Action.Submit 0]).bind (fun w => w.stateOf 0) = some TaskState.PENDING ∧
    (oneTaskWorld.run [Action.Submit 0, Action.Pop 0 0, Action.Capture 0,
        Action.Submit 0, Action.Cancel 0]).bind (fun w => w.stateOf 0) =
      some TaskState.CANCELED ∧
    (oneTaskWorld.run [Action.Submit 0, Action.Pop 0 0, Action.Capture 0,
        Action.Submit 0, Action.Cancel 0, Action.Pop 1 0, Action.Capture 1]).map
        (fun w => (w.stateOf 0, w.runs 0, w.phase 1)) =
      some (some TaskState.CANCELED, 1, WorkerPhase.waiting) ∧
    (oneTaskWorld.run [Action.Submit 0, Action.Pop 0 0, Action.Capture 0,
        Action.Submit 0, Action.Cancel 0, Action.Pop 1 0, Action.Capture 1,
        Action.Return 0]).map (fun w => (w.stateOf 0, w.runs 0)) =
      some (some TaskState.COMPLETED, 1) ∧
    (({ state_ := TaskState.CANCELED } : Task Relock.blocks).Pend.state_ = TaskState.PENDING ∧
      ({ state_ := TaskState.CANCELED } : Task Relock.blocks).Pend.Capture.1 = true) := by
  decide

/-- C16. A wakeup is lost.  Task 0 depends on task 1.  `Submit(1)` passes its test, `Cancel(1)`
drains the subscriber list of task 1 and notifies task 0, which has no handler yet, and the
body of `Submit(1)` makes task 1 PENDING: task 1 is unfinished, task 0 names it as a
dependency, and task 1 no longer lists task 0 as a subscriber.  Task 0 is then submitted;
worker 0 pops task 1, worker 1 pops task 0, finds it not ready and drops it; worker 0 runs
task 1 to completion, which notifies nobody.  Task 0 stays PENDING outside the queue and is
never run, although its only dependency is finished. -/
theorem Cancel_inside_Submit_loses_wakeup :
    Executor.SubmitCheck dependentPair 1 = some true ∧
    (∃ w, canceledInsideSubmitOfDependency = some w ∧ ¬ w.Subscribed) ∧
    canceledInsideSubmitOfDependency.map (fun w => (w.stateOf 1,
        (w.heap 1).map (fun t => t.subscribers_), (w.heap 0).map (fun t => t.dependencies_),
        w.exec.tasks_)) =
      some (some TaskState.PENDING, some [], some [1], [1]) ∧
    (canceledInsideSubmitOfDependency.bind (fun w => w.run [Action.Submit 0, Action.Pop 0 0,
        Action.Pop 1 0])).map (fun w => (w.stateOf 0, w.stateOf 1, w.exec.tasks_, w.phase 0,
          w.phase 1)) =
      some (some TaskState.PENDING, some TaskState.PENDING, [], WorkerPhase.ready 1,
        WorkerPhase.waiting) ∧
    (canceledInsideSubmitOfDependency.bind (fun w => w.run [Action.Submit 0, Action.Pop 0 0,
        Action.Pop 1 0, Action.Capture 0, Action.Return 0])).map
        (fun w => (w.stateOf 0, w.stateOf 1, w.exec.tasks_, w.runs 0, w.runs 1)) =
      some (some TaskState.PENDING, some TaskState.COMPLETED, [], 0, 1) := by
  refine ⟨by decide, ?_, by decide, by decide, by decide⟩
  refine ⟨(canceledInsideSubmitOfDependency).getD dependentPair, rfl, ?_⟩
  intro hsub
  have h := hsub 0 { dependencies_ := [1] } 1
    { state_ := TaskState.PENDING,
      notification_handler_ := some { weak_self := true, installed := rfl } }
    (by decide) (Or.inl (by decide)) (by decide) (by decide)
  simp at h

/-! ## The time trigger -/

/-- C4, as stated, fails under both behaviours of locking again, at a task with a time trigger
at tick 10 and a COMPLETED trigger, asked at tick 0.  Where locking again never returns,
`CanBeExecuted` does not return at all; where it returns, `CanBeExecuted` returns true, and the
worker that pops the task at tick 0 captures it and invokes its `Run`. -/
theorem CanBeExecuted_not_false_before_time_trigger :
    (timedTriggeredTask Relock.blocks).time_trigger_ = some 10 ∧
    (timedTriggeredTask Relock.blocks).CanBeExecuted (completedUpstream Relock.blocks) 0 =
      none ∧
    (timedTriggeredTask Relock.returns).CanBeExecuted (completedUpstream Relock.returns) 0 =
      some true ∧
    (timedWorld.run [Action.Submit 0, Action.Pop 0 0, Action.Capture 0]).map
        (fun w => (w.stateOf 0, w.runs 0)) = some (some TaskState.RUNNING, 1) := by
  decide

/-- C4, amended.  Let a task have a time trigger `tau` and let the clock read `now < tau`.
If the task has no dependencies and no triggers, `Task::CanBeExecuted` returns false.  Whenever
it returns false, the worker that popped the task does not capture it: it pushes the task to
the back of the queue and stays at the top of its loop.  Whenever `CanBeExecuted` returns at
all, it returns true exactly when some trigger is finished or the dependency list is non-empty
and all of it is finished: the time trigger holds back only what the other conditions do not
release.  Where locking again returns and the upstream tasks are alive, the call returns. -/
theorem CanBeExecuted_before_time_trigger (h : Heap m) (now tau : TimePoint) (t : Task m)
    (htt : t.time_trigger_ = some tau) (hlt : now < tau) :
    (t.triggers_ = [] → t.dependencies_ = [] → t.CanBeExecuted h now = some false) ∧
    (t.CanBeExecuted h now = some false →
      ∀ (w : World m) (wk : Nat) (id : TaskId) (rest : List TaskId),
        w.heap = h → h id = some t → w.phase wk = WorkerPhase.waiting →
        w.exec.is_finished_ = false → w.exec.tasks_ = id :: rest →
        Executor.RunWorkerPop w wk now =
          some { w with exec := { w.exec with tasks_ := rest ++ [id] } }) ∧
    (∀ b, t.CanBeExecuted h now = some b →
      (b = true ↔
        (∃ g ∈ t.triggers_, ∃ u, h g = some u ∧
          (u.state_ = TaskState.COMPLETED ∨ u.state_ = TaskState.FAILED ∨
            u.state_ = TaskState.CANCELED)) ∨
        (t.dependencies_ ≠ [] ∧ ∀ d ∈ t.dependencies_, ∃ u, h d = some u ∧
          (u.state_ = TaskState.COMPLETED ∨ u.state_ = TaskState.FAILED ∨
            u.state_ = TaskState.CANCELED)))) ∧
    (m = Relock.returns → (∀ p ∈ t.triggers_ ++ t.dependencies_, ∃ u, h p = some u) →
      ∃ b, t.CanBeExecuted h now = some b) := by
  have hcan : t.CanBeExecuted h now =
      match anyOfFinished h t.triggers_ with
      | none => none
      | some true => some true
      | some false =>
        match allOfFinished h t.dependencies_ with
        | none => none
        | some false => some false
        | some true => some (!t.dependencies_.isEmpty) := by
    unfold Task.CanBeExecuted
    simp [htt, hlt]
  refine ⟨?_, ?_, ?_, ?_⟩
  · intro hG hD
    rw [hcan, hG, hD]
    rfl
  · intro hb w wk id rest hw hid hph hfl hq
    subst hw
    simp [Executor.RunWorkerPop, hph, hfl, hq, hid, hb, Task.GetTimeTrigger, htt]
  · intro b hb
    rw [hcan] at hb
    simp only [← Task.IsFinished_iff]
    cases hany : anyOfFinished h t.triggers_ with
    | none => simp [hany] at hb
    | some bg =>
      cases bg with
      | true =>
        simp only [hany, Option.some.injEq] at hb
        subst hb
        simp only [true_iff]
        exact Or.inl (anyOfFinished_true h _ hany)
      | false =>
        have hnone : ¬ ∃ g ∈ t.triggers_, ∃ u, h g = some u ∧ u.IsFinished = true := by
          rintro ⟨g, hg, u, hu, hf⟩
          obtain ⟨v, hv, hvf⟩ := anyOfFinished_false h _ hany g hg
          rw [hu] at hv
          cases hv
          rw [hf] at hvf
          cases hvf
        cases hall : allOfFinished h t.dependencies_ with
        | none => simp [hany, hall] at hb
        | some bd =>
          cases bd with
          | false =>
            simp only [hany, hall, Option.some.injEq] at hb
            subst hb
            simp only [Bool.false_eq_true, false_iff, not_or]
            refine ⟨hnone, ?_⟩
            rintro ⟨-, hallfin⟩
            obtain ⟨p, hp, u, hu, hf⟩ := allOfFinished_false h _ hall
            obtain ⟨v, hv, hvf⟩ := hallfin p hp
            rw [hu] at hv
            cases hv
            rw [hf] at hvf
            cases hvf
          | true =>
            simp only [hany, hall, Option.some.injEq] at hb
            subst hb
            have hallfin := allOfFinished_true h _ hall
            cases hD : t.dependencies_ with
            | nil => simp [hnone]
            | cons d ds =>
              simp only [List.isEmpty_cons, Bool.not_false, true_iff]
              right
              rw [hD] at hallfin
              exact ⟨by simp, hallfin⟩
  · intro hm alive
    obtain ⟨b, hb, -⟩ := CanBeExecuted_of_returns hm h now t alive
    exact ⟨b, hb⟩

/-- C4, amended: where locking again never returns, a task whose only wiring is a time trigger
at tick 10 is not ready at tick 3; where it returns, such a task, submitted and popped at
tick 3, goes back into the queue. -/
theorem CanBeExecuted_before_time_trigger_witness :
    (timedOnlyTask Relock.blocks).CanBeExecuted (fun _ => none) 3 = some false ∧
    Executor.RunWorkerPop timedOnlyWorld 0 3 = some timedOnlyWorld :=
  ⟨(CanBeExecuted_before_time_trigger (fun _ => none) 3 10 (timedOnlyTask Relock.blocks) rfl
      (by decide)).1 rfl rfl,
    (CanBeExecuted_before_time_trigger timedOnlyWorld.heap 3 10
      { state_ := TaskState.PENDING, time_trigger_ := some 10 } rfl (by decide)).2.1
      (by decide) timedOnlyWorld 0 0 [] rfl rfl rfl rfl rfl⟩

/-! ## The pop section on a task that is not ready -/

/-- C12. When a waiting worker of a live executor pops the front task `t` of the queue
`t :: rest` and `CanBeExecuted` returns false, the queue afterwards is `rest ++ [t]` if `t` has
a time trigger and `rest` if it has none; the task objects, the count of `Run` invocations and
the control points of all workers (this one stays at the top of its loop) are unchanged. -/
theorem RunWorkerPop_not_ready (w : World m) (wk : Nat) (now : TimePoint) (t : TaskId)
    (rest : List TaskId) (task : Task m) (hph : w.phase wk = WorkerPhase.waiting)
    (hfl : w.exec.is_finished_ = false) (hq : w.exec.tasks_ = t :: rest)
    (ht : w.heap t = some task) (hcan : task.CanBeExecuted w.heap now = some false) :
    ∃ w1, Executor.RunWorkerPop w wk now = some w1 ∧
      (∀ tp, task.time_trigger_ = some tp → w1.exec.tasks_ = rest ++ [t]) ∧
      (task.time_trigger_ = none → w1.exec.tasks_ = rest) ∧
      w1.heap = w.heap ∧ w1.runs = w.runs ∧ w1.phase = w.phase ∧
      w1.exec.is_finished_ = false := by
  cases htt : task.time_trigger_ with
  | none =>
    refine ⟨{ w with exec := { w.exec with tasks_ := rest } }, ?_, ?_, fun _ => rfl, rfl, rfl,
      rfl, hfl⟩
    · simp [Executor.RunWorkerPop, hph, hfl, hq, ht, hcan, Task.GetTimeTrigger, htt]
    · intro tp h
      cases h
  | some tp0 =>
    refine ⟨{ w with exec := { w.exec with tasks_ := rest ++ [t] } }, ?_, fun _ _ => rfl, ?_,
      rfl, rfl, rfl, hfl⟩
    · simp [Executor.RunWorkerPop, hph, hfl, hq, ht, hcan, Task.GetTimeTrigger, htt]
    · intro h
      cases h

/-- C12, at a task whose only wiring is a time trigger at tick 10, popped at tick 3: alone in
the queue, and in front of another task, behind which it then stands. -/
theorem RunWorkerPop_not_ready_witness :
    (∃ w1, Executor.RunWorkerPop timedOnlyWorld 0 3 = some w1 ∧
      (∀ tp, (some 10 : Option TimePoint) = some tp → w1.exec.tasks_ = [] ++ [0]) ∧
      ((some 10 : Option TimePoint) = none → w1.exec.tasks_ = []) ∧
      w1.heap = timedOnlyWorld.heap ∧ w1.runs = timedOnlyWorld.runs ∧
      w1.phase = timedOnlyWorld.phase ∧ w1.exec.is_finished_ = false) ∧
    (∃ w1, Executor.RunWorkerPop timedFrontWorld 0 3 = some w1 ∧
      (∀ tp, (some 10 : Option TimePoint) = some tp → w1.exec.tasks_ = [1] ++ [0]) ∧
      ((some 10 : Option TimePoint) = none → w1.exec.tasks_ = [1]) ∧
      w1.heap = timedFrontWorld.heap ∧ w1.runs = timedFrontWorld.runs ∧
      w1.phase = timedFrontWorld.phase ∧ w1.exec.is_finished_ = false) :=
  ⟨RunWorkerPop_not_ready timedOnlyWorld 0 3 0 []
      { state_ := TaskState.PENDING, time_trigger_ := some 10 } rfl rfl rfl rfl (by decide),
    RunWorkerPop_not_ready timedFrontWorld 0 3 0 [1]
      { state_ := TaskState.PENDING, time_trigger_ := some 10 } rfl rfl rfl rfl (by decide)⟩

/-! ## Wiring -/

theorem AddSubscriber_then_append (w : World m) (t d : TaskId) (tt td : Task m) (hne : t ≠ d)
    (ht : w.heap t = some tt) (f : Task m → Task m) :
    (match (w.setTask d (td.AddSubscriber t)).heap t with
      | none => none
      | some x => some ((w.setTask d (td.AddSubscriber t)).setTask t (f x))) =
      some ((w.setTask d (td.AddSubscriber t)).setTask t (f tt)) := by
  have h1 : (w.setTask d (td.AddSubscriber t)).heap t = some tt := by
    simp [World.setTask, Function.update_noteq hne, ht]
  rw [h1]

/-- C14. For two distinct live tasks `t` and `d`, `t.AddDependency(d)` appends `d` to the
dependency list of `t` and `t` to the subscriber list of `d` and changes no other field of the
two tasks (state, trigger list, time trigger, stored error, handler, and for `d` also its
dependency list), no other task, and nothing of the executor or the workers;
`t.AddTrigger(d)` does the same with the trigger list of `t`. -/
theorem AddDependency_spec (w : World m) (t d : TaskId) (tt td : Task m) (hne : t ≠ d)
    (ht : w.heap t = some tt) (hd : w.heap d = some td) :
    (∃ w1, Task.AddDependency w t d = some w1 ∧
      w1.heap t = some { tt with dependencies_ := tt.dependencies_ ++ [d] } ∧
      w1.heap d = some { td with subscribers_ := td.subscribers_ ++ [t] } ∧
      (∀ x, x ≠ t → x ≠ d → w1.heap x = w.heap x) ∧
      w1.exec = w.exec ∧ w1.phase = w.phase ∧ w1.runs = w.runs) ∧
    (∃ w1, Task.AddTrigger w t d = some w1 ∧
      w1.heap t = some { tt with triggers_ := tt.triggers_ ++ [d] } ∧
      w1.heap d = some { td with subscribers_ := td.subscribers_ ++ [t] } ∧
      (∀ x, x ≠ t → x ≠ d → w1.heap x = w.heap x) ∧
      w1.exec = w.exec ∧ w1.phase = w.phase ∧ w1.runs = w.runs) := by
  have hdt : d ≠ t := fun h => hne h.symm
  constructor
  · refine ⟨(w.setTask d (td.AddSubscriber t)).setTask t
      { tt with dependencies_ := tt.dependencies_ ++ [d] }, ?_, ?_, ?_, ?_, rfl, rfl, rfl⟩
    · unfold Task.AddDependency
      rw [if_neg (fun h => hne h.1), hd]
      exact AddSubscriber_then_append w t d tt td hne ht
        (fun x => { x with dependencies_ := x.dependencies_ ++ [d] })
    · simp [World.setTask]
    · simp [World.setTask, Function.update_noteq hdt, Task.AddSubscriber]
    · intro x hxt hxd
      simp [World.setTask, Function.update_noteq hxt, Function.update_noteq hxd]
  · refine ⟨(w.setTask d (td.AddSubscriber t)).setTask t
      { tt with triggers_ := tt.triggers_ ++ [d] }, ?_, ?_, ?_, ?_, rfl, rfl, rfl⟩
    · unfold Task.AddTrigger
      rw [if_neg (fun h => hne h.1), hd]
      exact AddSubscriber_then_append w t d tt td hne ht
        (fun x => { x with triggers_ := x.triggers_ ++ [d] })
    · simp [World.setTask]
    · simp [World.setTask, Function.update_noteq hdt, Task.AddSubscriber]
    · intro x hxt hxd
      simp [World.setTask, Function.update_noteq hxt, Function.update_noteq hxd]

/-- C14, at two freshly constructed tasks: task 0 gets the dependency 1. -/
theorem AddDependency_spec_witness :
    ∃ w1, Task.AddDependency twoTaskWorld 0 1 = some w1 ∧
      w1.heap 0 = some { dependencies_ := [1] } ∧
      w1.heap 1 = some { subscribers_ := [0] } ∧
      (∀ x, x ≠ 0 → x ≠ 1 → w1.heap x = twoTaskWorld.heap x) ∧
      w1.exec = twoTaskWorld.exec ∧ w1.phase = twoTaskWorld.phase ∧
      w1.runs = twoTaskWorld.runs :=
  (AddDependency_spec twoTaskWorld 0 1 {} {} (by decide) rfl rfl).1

/-! ## Readiness is monotone -/

theorem anyOfFinished_some_mono (h h2 : Heap m) (ps : List TaskId)
    (hmono : ∀ u task, h u = some task →
      ∃ task2, h2 u = some task2 ∧ (task.IsFinished = true → task2.IsFinished = true))
    (b : Bool) (hb : anyOfFinished h ps = some b) :
    ∃ b2, anyOfFinished h2 ps = some b2 ∧ (b = true → b2 = true) := by
  induction ps with
  | nil => exact ⟨false, rfl, by simpa [anyOfFinished] using hb⟩
  | cons p ps ih =>
    cases hp : h p with
    | none => simp [anyOfFinished, hp] at hb
    | some u =>
      cases hc : u.IsFinishedCall with
      | none => simp [anyOfFinished, hp, hc] at hb
      | some c =>
        obtain ⟨hm, hfc⟩ := Task.IsFinishedCall_eq_some u c hc
        obtain ⟨u2, hu2, hfin⟩ := hmono p u hp
        have hc2 := Task.IsFinishedCall_of_returns u2 hm
        by_cases hf2 : u2.IsFinished = true
        · exact ⟨true, by simp [anyOfFinished, hu2, hc2, hf2], fun _ => rfl⟩
        · have hcf : c = false := by
            cases c with
            | false => rfl
            | true => exact absurd (hfin hfc) hf2
          subst hcf
          simp only [anyOfFinished, hp, hc] at hb
          obtain ⟨b2, hb2, himp⟩ := ih hb
          exact ⟨b2, by simp [anyOfFinished, hu2, hc2, hf2, hb2], himp⟩

theorem allOfFinished_true_mono (h h2 : Heap m) (ps : List TaskId)
    (hmono : ∀ u task, h u = some task →
      ∃ task2, h2 u = some task2 ∧ (task.IsFinished = true → task2.IsFinished = true))
    (hb : allOfFinished h ps = some true) : allOfFinished h2 ps = some true := by
  induction ps with
  | nil => rfl
  | cons p ps ih =>
    cases hp : h p with
    | none => simp [allOfFinished, hp] at hb
    | some u =>
      cases hc : u.IsFinishedCall with
      | none => simp [allOfFinished, hp, hc] at hb
      | some c =>
        obtain ⟨hm, hfc⟩ := Task.IsFinishedCall_eq_some u c hc
        obtain ⟨u2, hu2, hfin⟩ := hmono p u hp
        have hc2 := Task.IsFinishedCall_of_returns u2 hm
        cases c with
        | false => simp [allOfFinished, hp, hc] at hb
        | true =>
          simp only [allOfFinished, hp, hc] at hb
          simp [allOfFinished, hu2, hc2, hfin hfc, ih hb]

/-- C17. Readiness is monotone, under both behaviours of locking again.  For a task with fixed
wiring, if `CanBeExecuted` returns true at clock reading `now` in a store `h`, it returns true
at every reading `now2 ≥ now` in every store `h2` in which every task alive in `h` is still
alive and every task finished in `h` is still finished. -/
theorem CanBeExecuted_mono (h h2 : Heap m) (now now2 : TimePoint) (t : Task m)
    (hnow : now ≤ now2)
    (hmono : ∀ u task, h u = some task →
      ∃ task2, h2 u = some task2 ∧ (task.IsFinished = true → task2.IsFinished = true))
    (hready : t.CanBeExecuted h now = some true) :
    t.CanBeExecuted h2 now2 = some true := by
  unfold Task.CanBeExecuted at hready ⊢
  split
  · rfl
  · next hwired =>
    simp only [hwired, if_false] at hready
    split
    · next hearly2 =>
      have hearly : (match t.time_trigger_ with
          | none => true
          | some tp => decide (now < tp)) = true := by
        cases htt : t.time_trigger_ with
        | none => rfl
        | some tp =>
          simp only [htt, decide_eq_true_eq] at hearly2 ⊢
          exact Nat.lt_of_le_of_lt hnow hearly2
      simp only [hearly, if_true] at hready
      cases hany : anyOfFinished h t.triggers_ with
      | none => simp [hany] at hready
      | some bg =>
        obtain ⟨bg2, hbg2, himp⟩ := anyOfFinished_some_mono h h2 t.triggers_ hmono bg hany
        cases bg2 with
        | true => simp [hbg2]
        | false =>
          have hbg : bg = false := by
            cases bg with
            | false => rfl
            | true => exact absurd (himp rfl) (by decide)
          subst hbg
          cases hall : allOfFinished h t.dependencies_ with
          | none => simp [hany, hall] at hready
          | some bd =>
            cases bd with
            | false => simp [hany, hall] at hready
            | true =>
              have hall2 := allOfFinished_true_mono h h2 t.dependencies_ hmono hall
              simpa [hany, hall, hbg2, hall2] using hready
    · rfl

/-- C17, twice.  Where locking again never returns: a task with a time trigger at tick 10 and
a trigger is ready at tick 10, hence at tick 12.  Where it returns: a task whose only trigger
is COMPLETED is ready at tick 0, hence at tick 5. -/
theorem CanBeExecuted_mono_witness :
    (timedTriggeredTask Relock.blocks).CanBeExecuted (completedUpstream Relock.blocks) 12 =
      some true ∧
    (triggeredTask Relock.returns).CanBeExecuted (completedUpstream Relock.returns) 5 =
      some true :=
  ⟨CanBeExecuted_mono (completedUpstream Relock.blocks) (completedUpstream Relock.blocks) 10 12
      (timedTriggeredTask Relock.blocks) (by decide)
      (fun _ task hu => ⟨task, hu, fun hf => hf⟩) (by decide),
    CanBeExecuted_mono (completedUpstream Relock.returns) (completedUpstream Relock.returns) 0 5
      (triggeredTask Relock.returns) (by decide)
      (fun _ task hu => ⟨task, hu, fun hf => hf⟩) (by decide)⟩

/-! ## Being finished is absorbing -/

theorem CaptureAt_finished (w w1 : World m) (id x : TaskId) (tx : Task m)
    (hc : Task.CaptureAt w id = some w1) (hx : w.heap x = some tx)
    (hfin : tx.IsFinished = true) : w1.heap x = some tx := by
  unfold Task.CaptureAt at hc
  split at hc
  · cases hc
  · next t ht =>
    cases hc
    by_cases hxi : x = id
    · subst hxi
      rw [hx] at ht
      cases ht
      have hcap : tx.Capture.2 = tx := by
        rcases (Task.IsFinished_iff tx).mp hfin with h | h | h <;> simp [Task.Capture, h]
      simp [World.setTask, hcap]
    · simp [World.setTask, Function.update_noteq hxi, hx]

theorem apply_finished (w w1 : World m) (op : TaskOp) (t : TaskId) (task : Task m)
    (hop : w.apply op = some w1) (ht : w.heap t = some task) (hfin : task.IsFinished = true) :
    ∃ task1, w1.heap t = some task1 ∧ task1.IsFinished = true := by
  cases op with
  | Submit x => exact ⟨task, Submit_preserves w w1 x t task hop ht hfin, hfin⟩
  | Cancel x => exact ⟨task, Cancel_preserves w w1 x t task hop ht hfin, hfin⟩
  | Capture x => exact ⟨task, CaptureAt_finished w w1 x t task hop ht hfin, hfin⟩
  | Complete x => exact Complete_finished w w1 x t task hop ht hfin
  | SetError x e => exact SetError_finished w w1 x t e task hop ht hfin

/-- C18. Being finished is absorbing, under both behaviours of locking again.  Once
`IsFinished` is true for a task it is true after every sequence of `Executor::Submit`,
`Task::Cancel`, `Task::Capture`, `Task::Complete` and `Task::SetError` calls on any tasks, each
call one atomic step that returns.  A `Submit` of the finished task that returns has changed
nothing, so it never moves the task back to PENDING; it does return when the finished flag is
set or locking again returns. -/
theorem IsFinished_absorbing (w : World m) (t : TaskId) (task : Task m)
    (ht : w.heap t = some task) (hfin : task.IsFinished = true) :
    (∀ ops w1, w.applyAll ops = some w1 →
      ∃ task1, w1.heap t = some task1 ∧ task1.IsFinished = true) ∧
    (∀ w1, Executor.Submit w t = some w1 → w1 = w) ∧
    (w.exec.is_finished_ = true ∨ m = Relock.returns → Executor.Submit w t = some w) := by
  have hsub : ∀ w1, Executor.Submit w t = some w1 → w1 = w := by
    intro w1 hc
    obtain ⟨task0, h0, rfl | ⟨hm, rfl⟩⟩ := Submit_eq_some w w1 t hc
    · rfl
    · rw [ht] at h0
      cases h0
      exact SubmitThrough_of_finished w t task hm hfin
  refine ⟨?_, hsub, ?_⟩
  · intro ops
    induction ops generalizing w task with
    | nil =>
      intro w1 h1
      simp only [World.applyAll, Option.some.injEq] at h1
      subst h1
      exact ⟨task, ht, hfin⟩
    | cons op ops ih =>
      intro w1 h1
      unfold World.applyAll at h1
      split at h1
      · cases h1
      · next w2 hop =>
        obtain ⟨task2, h2, hf2⟩ := apply_finished w w2 op t task hop ht hfin
        exact ih w2 task2 h2 hf2 (fun w3 hc => by
          obtain ⟨task0, h0, rfl | ⟨hm, rfl⟩⟩ := Submit_eq_some w2 w3 t hc
          · rfl
          · rw [h2] at h0
            cases h0
            exact SubmitThrough_of_finished w2 t task2 hm hf2) w1 h1
  · rintro (hfl | hm)
    · simp only [Executor.Submit, ht]
      exact (SubmitTask_eq w t task).1 hfl
    · simp only [Executor.Submit, ht]
      rw [(SubmitTask_eq w t task).2.2 hm, SubmitThrough_of_finished w t task hm hfin]

/-- C18, at a CANCELED task.  Where locking again never returns: after `Cancel`, `Capture`,
`Complete` and `SetError` the task is still finished.  Where it returns: also after `Submit`,
`Capture`, `Complete` and `SetError`. -/
theorem IsFinished_absorbing_witness :
    (∃ task1, ((canceledWorld Relock.blocks).applyAll [TaskOp.Cancel 0, TaskOp.Capture 0,
        TaskOp.Complete 0, TaskOp.SetError 0 (some 7)]).bind (fun w1 => w1.heap 0) =
          some task1 ∧ task1.IsFinished = true) ∧
    (∃ task1, ((canceledWorld Relock.returns).applyAll [TaskOp.Submit 0, TaskOp.Capture 0,
        TaskOp.Complete 0, TaskOp.SetError 0 (some 7)]).bind (fun w1 => w1.heap 0) =
          some task1 ∧ task1.IsFinished = true) := by
  obtain ⟨task1, h1, h2⟩ := (IsFinished_absorbing (canceledWorld Relock.blocks) 0
    { state_ := TaskState.CANCELED } rfl rfl).1
    [TaskOp.Cancel 0, TaskOp.Capture 0, TaskOp.Complete 0, TaskOp.SetError 0 (some 7)]
    _ rfl
  obtain ⟨task2, h3, h4⟩ := (IsFinished_absorbing (canceledWorld Relock.returns) 0
    { state_ := TaskState.CANCELED } rfl rfl).1
    [TaskOp.Submit 0, TaskOp.Capture 0, TaskOp.Complete 0, TaskOp.SetError 0 (some 7)]
    _ rfl
  exact ⟨⟨task1, h1, h2⟩, ⟨task2, h3, h4⟩⟩

/-! ## Shutdown -/

theorem SubmitThrough_of_shutdown (w : World m) (id : TaskId) (task : Task m)
    (hm : m = Relock.returns) (hfl : w.exec.is_finished_ = true) :
    Executor.SubmitThrough w id task hm = w := by
  simp [Executor.SubmitThrough, hfl]

theorem SubmitTask_of_shutdown (w : World m) (id : TaskId) (task : Task m)
    (hfl : w.exec.is_finished_ = true) : Executor.SubmitTask w id task = some w := by
  simp [Executor.SubmitTask, hfl]

theorem Notify_of_shutdown (w : World m) (id : TaskId) (task : Task m)
    (hfl : w.exec.is_finished_ = true) : Task.Notify w id task = w := by
  unfold Task.Notify
  split
  · split
    · exact SubmitThrough_of_shutdown w id task _ hfl
    · rfl
  · rfl

theorem NotifyLoop_of_shutdown (this : TaskId) (subs : List TaskId) (w : World m)
    (hfl : w.exec.is_finished_ = true) : Task.NotifyLoop this subs w = w := by
  induction subs with
  | nil => rfl
  | cons sub subs ih =>
    unfold Task.NotifyLoop
    split
    · split
      · next task _ _ =>
        rw [Notify_of_shutdown w sub task hfl]
        exact ih
      · exact ih
    · exact ih

theorem NotifySubscribers_exec_of_shutdown (w : World m) (id : TaskId) (t : Task m)
    (hfl : w.exec.is_finished_ = true) : (Task.NotifySubscribers w id t).exec = w.exec := by
  unfold Task.NotifySubscribers
  rw [NotifyLoop_of_shutdown id t.subscribers_ _ (by simpa [World.setTask] using hfl)]
  rfl

theorem RunWorkerPop_of_shutdown (w w1 : World m) (wk : Nat) (now : TimePoint)
    (hfl : w.exec.is_finished_ = true) (hc : Executor.RunWorkerPop w wk now = some w1) :
    w1.exec = w.exec ∧ w1.runs = w.runs ∧
      ∀ k, w1.phase k = w.phase k ∨ w1.phase k = WorkerPhase.exited := by
  unfold Executor.RunWorkerPop at hc
  split at hc
  · simp only [hfl, if_true, Option.some.injEq] at hc
    subst hc
    refine ⟨rfl, rfl, ?_⟩
    intro k
    by_cases hk : k = wk
    · subst hk
      exact Or.inr (by simp [World.setPhase])
    · exact Or.inl (by simp [World.setPhase, Function.update_noteq hk])
  · cases hc
    exact ⟨rfl, rfl, fun _ => Or.inl rfl⟩

theorem RunWorkerFinish_exec_of_shutdown (w w1 : World m) (wk : Nat) (thrown : Option Nat)
    (hfl : w.exec.is_finished_ = true)
    (hc : Executor.RunWorkerFinish w wk thrown = some w1) : w1.exec = w.exec := by
  unfold Executor.RunWorkerFinish at hc
  split at hc
  · next id hph =>
    split at hc
    · unfold Task.Complete at hc
      split at hc
      · cases hc
      · simp only [Option.map_some', Option.some.injEq] at hc
        subst hc
        exact NotifySubscribers_exec_of_shutdown w id _ hfl
    · unfold Task.SetError at hc
      split at hc
      · cases hc
      · simp only [Option.map_some', Option.some.injEq] at hc
        subst hc
        exact NotifySubscribers_exec_of_shutdown w id _ hfl
  · cases hc
    rfl

theorem Cancel_exec_of_shutdown (w w1 : World m) (id : TaskId)
    (hfl : w.exec.is_finished_ = true) (hc : Task.Cancel w id = some w1) :
    w1.exec = w.exec := by
  unfold Task.Cancel at hc
  split at hc
  · cases hc
  · split at hc <;> cases hc <;>
      first
        | rfl
        | exact NotifySubscribers_exec_of_shutdown w id _ hfl

theorem step_shutdown (w w1 : World m) (a : Action) (hfl : w.exec.is_finished_ = true)
    (hq : w.exec.tasks_ = []) (hstep : w.step a = some w1) :
    w1.exec.is_finished_ = true ∧ w1.exec.tasks_ = [] ∧
      ∀ t, (∀ wk, w.phase wk ≠ WorkerPhase.ready t) →
        (∀ wk, w1.phase wk ≠ WorkerPhase.ready t) ∧ w1.runs t = w.runs t := by
  cases a with
  | Submit x =>
    obtain ⟨g1, g2, -⟩ := Submit_frame w w1 x hstep
    simp only [World.step, Executor.Submit] at hstep
    split at hstep
    · cases hstep
    · next tx htx =>
      rw [SubmitTask_of_shutdown w x tx hfl] at hstep
      cases hstep
      exact ⟨hfl, hq, fun t ht => ⟨ht, rfl⟩⟩
  | Cancel x =>
    obtain ⟨g1, g2, -⟩ := Cancel_frame w w1 x hstep
    have hex := Cancel_exec_of_shutdown w w1 x hfl hstep
    exact ⟨by rw [hex]; exact hfl, by rw [hex]; exact hq,
      fun t ht => ⟨fun wk => by rw [g1]; exact ht wk, by rw [g2]⟩⟩
  | Pop wk now =>
    simp only [World.step] at hstep
    split at hstep
    · obtain ⟨g1, g2, g3⟩ := RunWorkerPop_of_shutdown w w1 wk now hfl hstep
      refine ⟨by rw [g1]; exact hfl, by rw [g1]; exact hq, fun t ht => ⟨?_, by rw [g2]⟩⟩
      intro k hk
      rcases g3 k with h | h
      · exact ht k (h ▸ hk)
      · rw [h] at hk
        cases hk
    · cases hstep
      exact ⟨hfl, hq, fun t ht => ⟨ht, rfl⟩⟩
  | Capture wk =>
    simp only [World.step] at hstep
    split at hstep
    · rcases RunWorkerCapture_cases w w1 wk hstep with
        ⟨id0, task0, hph, -, -, -, hphase, hruns, hex⟩ | ⟨id0, task0, -, -, -, rfl⟩ | ⟨-, rfl⟩
      · refine ⟨by rw [hex]; exact hfl, by rw [hex]; exact hq, fun t ht => ⟨?_, ?_⟩⟩
        · intro k hk
          rw [hphase] at hk
          by_cases hkw : k = wk
          · subst hkw
            simp at hk
          · rw [Function.update_noteq hkw] at hk
            exact ht k hk
        · have hne : t ≠ id0 := by
            rintro rfl
            exact ht wk hph
          rw [hruns, Function.update_noteq hne]
      · refine ⟨hfl, hq, fun t ht => ⟨?_, rfl⟩⟩
        intro k hk
        by_cases hkw : k = wk
        · subst hkw
          simp [World.setPhase] at hk
        · simp only [World.setPhase, Function.update_noteq hkw] at hk
          exact ht k hk
      · exact ⟨hfl, hq, fun t ht => ⟨ht, rfl⟩⟩
    · cases hstep
      exact ⟨hfl, hq, fun t ht => ⟨ht, rfl⟩⟩
  | Return wk =>
    simp only [World.step] at hstep
    split at hstep
    · obtain ⟨g1, -, g3, g4⟩ := RunWorkerFinish_frame w w1 wk none hstep
      have hex := RunWorkerFinish_exec_of_shutdown w w1 wk none hfl hstep
      refine ⟨by rw [hex]; exact hfl, by rw [hex]; exact hq, fun t ht => ⟨?_, by rw [g1]⟩⟩
      intro k hk
      by_cases hkw : k = wk
      · subst hkw
        rcases g4 with h | h
        · exact ht k (h ▸ hk)
        · rw [h] at hk
          cases hk
      · exact ht k ((g3 k hkw) ▸ hk)
    · cases hstep
      exact ⟨hfl, hq, fun t ht => ⟨ht, rfl⟩⟩
  | Throw wk e =>
    simp only [World.step] at hstep
    split at hstep
    · obtain ⟨g1, -, g3, g4⟩ := RunWorkerFinish_frame w w1 wk (some e) hstep
      have hex := RunWorkerFinish_exec_of_shutdown w w1 wk (some e) hfl hstep
      refine ⟨by rw [hex]; exact hfl, by rw [hex]; exact hq, fun t ht => ⟨?_, by rw [g1]⟩⟩
      intro k hk
      by_cases hkw : k = wk
      · subst hkw
        rcases g4 with h | h
        · exact ht k (h ▸ hk)
        · rw [h] at hk
          cases hk
      · exact ht k ((g3 k hkw) ▸ hk)
    · cases hstep
      exact ⟨hfl, hq, fun t ht => ⟨ht, rfl⟩⟩
  | StartShutdown =>
    simp only [World.step, Option.some.injEq] at hstep
    subst hstep
    exact ⟨rfl, rfl, fun t ht => ⟨ht, rfl⟩⟩

theorem run_shutdown (acts : List Action) (w w1 : World m) (hfl : w.exec.is_finished_ = true)
    (hq : w.exec.tasks_ = []) (hrun : w.run acts = some w1) :
    w1.exec.is_finished_ = true ∧ w1.exec.tasks_ = [] ∧
      ∀ t, (∀ wk, w.phase wk ≠ WorkerPhase.ready t) →
        (∀ wk, w1.phase wk ≠ WorkerPhase.ready t) ∧ w1.runs t = w.runs t := by
  induction acts generalizing w with
  | nil =>
    simp only [World.run, Option.some.injEq] at hrun
    subst hrun
    exact ⟨hfl, hq, fun t ht => ⟨ht, rfl⟩⟩
  | cons a acts ih =>
    unfold World.run at hrun
    split at hrun
    · cases hrun
    · next w2 hstep =>
      obtain ⟨h1, h2, h3⟩ := step_shutdown w w2 a hfl hq hstep
      obtain ⟨k1, k2, k3⟩ := ih w2 h1 h2 hrun
      refine ⟨k1, k2, fun t ht => ?_⟩
      obtain ⟨m1, m2⟩ := h3 t ht
      obtain ⟨n1, n2⟩ := k3 t m1
      exact ⟨n1, n2.trans m2⟩

/-- C11. `StartShutdown` sets the finished flag and empties the queue and leaves every task
object as it is.  After it, in every interleaving of user calls and worker steps the flag stays
set and the queue stays empty, every `Submit` returns without changing anything, and a task
that no worker had popped and held when `StartShutdown` was called is never held, captured or
run afterwards. -/
theorem StartShutdown_final (w : World m) :
    (Executor.StartShutdown w).exec.is_finished_ = true ∧
    (Executor.StartShutdown w).exec.tasks_ = [] ∧
    (Executor.StartShutdown w).heap = w.heap ∧
    ∀ acts w2, (Executor.StartShutdown w).run acts = some w2 →
      w2.exec.is_finished_ = true ∧ w2.exec.tasks_ = [] ∧
      (∀ t task, w2.heap t = some task → Executor.Submit w2 t = some w2) ∧
      (∀ t, (∀ wk, w.phase wk ≠ WorkerPhase.ready t) →
        (∀ wk, w2.phase wk ≠ WorkerPhase.ready t) ∧ w2.runs t = w.runs t) := by
  refine ⟨rfl, rfl, rfl, ?_⟩
  intro acts w2 hrun
  obtain ⟨h1, h2, h3⟩ := run_shutdown acts _ w2 rfl rfl hrun
  refine ⟨h1, h2, ?_, h3⟩
  intro t task ht
  simp [Executor.Submit, ht, SubmitTask_of_shutdown w2 t task h1]

/-- C11, after a shutdown of the executor on which worker 0 holds task 0: a `Submit` and a pop
of worker 1 leave the flag set and the queue empty, and worker 1 has left its loop. -/
theorem StartShutdown_final_witness :
    ∃ w2, (Executor.StartShutdown poppedWorld).run [Action.Submit 0, Action.Pop 1 0] = some w2 ∧
      w2.exec.is_finished_ = true ∧ w2.exec.tasks_ = [] ∧
      w2.phase 1 = WorkerPhase.exited := by
  obtain ⟨h1, h2, -, -⟩ := (StartShutdown_final poppedWorld).2.2.2
    [Action.Submit 0, Action.Pop 1 0] _ rfl
  exact ⟨_, rfl, h1, h2, by decide⟩

/-! ## How often a subscriber is notified -/

theorem lockOrder_append (n : Nat) (xs ys : List LockEvent) :
    lockOrder n (xs ++ ys) = (lockOrder n xs).bind (fun m => lockOrder m ys) := by
  induction xs generalizing n with
  | nil => rfl
  | cons e xs ih =>
    cases e with
    | lock m =>
      cases m with
      | executor =>
        simp only [List.cons_append, lockOrder]
        split
        · exact ih n
        · rfl
      | task id =>
        simp only [List.cons_append, lockOrder]
        exact ih (n + 1)
    | unlock m =>
      cases m with
      | executor =>
        simp only [List.cons_append, lockOrder]
        exact ih n
      | task id =>
        simp only [List.cons_append, lockOrder]
        exact ih (n - 1)

theorem lockOrder_guard (n : Nat) (id : TaskId) :
    lockOrder n [LockEvent.lock (Mutex.task id), LockEvent.unlock (Mutex.task id)] = some n := by
  simp [lockOrder]

theorem lockOrder_IsFinishedLocks (n : Nat) (t : Task m) (id : TaskId) :
    lockOrder n (Task.IsFinishedLocks t id) = some n := by
  unfold Task.IsFinishedLocks Task.IsCompletedLocks Task.IsFailedLocks Task.IsCanceledLocks
  cases t.IsCompleted <;> cases t.IsFailed <;> simp [lockOrder]

theorem lockOrder_anyOfFinishedLocks (n : Nat) (h : Heap m) (ps : List TaskId) :
    lockOrder n (anyOfFinishedLocks h ps) = some n := by
  induction ps with
  | nil => rfl
  | cons p ps ih =>
    unfold anyOfFinishedLocks
    split
    · rfl
    · next u _ =>
      rw [lockOrder_append, lockOrder_IsFinishedLocks]
      split
      · rfl
      · exact ih

theorem lockOrder_allOfFinishedLocks (n : Nat) (h : Heap m) (ps : List TaskId) :
    lockOrder n (allOfFinishedLocks h ps) = some n := by
  induction ps with
  | nil => rfl
  | cons p ps ih =>
    unfold allOfFinishedLocks
    split
    · rfl
    · next u _ =>
      rw [lockOrder_append, lockOrder_IsFinishedLocks]
      split
      · exact ih
      · rfl

theorem lockOrder_CanBeExecutedLocks (n : Nat) (h : Heap m) (now : TimePoint) (t : Task m)
    (id : TaskId) : lockOrder n (Task.CanBeExecutedLocks h now t id) = some n := by
  have body : ∀ m, lockOrder m
      (if t.triggers_.isEmpty && t.dependencies_.isEmpty && !t.time_trigger_.isSome then []
       else if (match t.time_trigger_ with
                | none => true
                | some tp => decide (now < tp)) then
         anyOfFinishedLocks h t.triggers_ ++
           (match anyOfFinished h t.triggers_ with
            | some false => allOfFinishedLocks h t.dependencies_
            | _ => [])
       else []) = some m := by
    intro m
    split
    · rfl
    · split
      · rw [lockOrder_append, lockOrder_anyOfFinishedLocks]
        split
        · exact lockOrder_allOfFinishedLocks m h _
        · rfl
      · rfl
  unfold Task.CanBeExecutedLocks
  have h1 : lockOrder n [LockEvent.lock (Mutex.task id)] = some (n + 1) := rfl
  have h2 : lockOrder (n + 1) [LockEvent.unlock (Mutex.task id)] = some n := rfl
  rw [lockOrder_append, lockOrder_append, h1]
  simp only [Option.some_bind, body, h2]

theorem lockOrder_SubmitTaskLocks (w : World m) (id : TaskId) (task : Task m) :
    lockOrder 0 (Executor.SubmitTaskLocks w id task) = some 0 := by
  have body : lockOrder 0
      (if w.exec.is_finished_ then []
       else Task.IsFinishedLocks task id ++
         (if task.IsFinished then []
          else Task.PendLocks id ++ Task.SetNotificationHandlerLocks id)) = some 0 := by
    split
    · rfl
    · rw [lockOrder_append, lockOrder_IsFinishedLocks]
      split
      · rfl
      · simp [Task.PendLocks, Task.SetNotificationHandlerLocks, lockOrder]
  unfold Executor.SubmitTaskLocks
  have h1 : lockOrder 0 [LockEvent.lock Mutex.executor] = some 0 := rfl
  have h2 : lockOrder 0 [LockEvent.unlock Mutex.executor] = some 0 := rfl
  rw [lockOrder_append, lockOrder_append, h1]
  simp only [Option.some_bind, body, h2]

theorem lockOrder_NotifyLocks (w : World m) (id : TaskId) (task : Task m) :
    lockOrder 0 (Task.NotifyLocks w id task) = some 0 := by
  unfold Task.NotifyLocks
  rw [lockOrder_append, lockOrder_guard]
  simp only [Option.some_bind]
  split
  · split
    · exact lockOrder_SubmitTaskLocks w id task
    · rfl
  · rfl

theorem lockOrder_NotifyLoopLocks (this : TaskId) (subs : List TaskId) (w : World m) :
    lockOrder 0 (Task.NotifyLoopLocks this subs w) = some 0 := by
  induction subs generalizing w with
  | nil => rfl
  | cons sub subs ih =>
    unfold Task.NotifyLoopLocks
    split
    · split
      · rw [lockOrder_append, lockOrder_NotifyLocks]
        exact ih _
      · exact ih w
    · exact ih w

theorem lockOrder_NotifySubscribersLocks (w : World m) (id : TaskId) (t : Task m) :
    lockOrder 1 (Task.NotifySubscribersLocks w id t) = some 1 := by
  unfold Task.NotifySubscribersLocks
  have h1 : lockOrder 1 [LockEvent.unlock (Mutex.task id)] = some 0 := rfl
  have h2 : lockOrder 0 [LockEvent.lock (Mutex.task id)] = some 1 := rfl
  rw [lockOrder_append, lockOrder_append, h1]
  simp only [Option.some_bind, lockOrder_NotifyLoopLocks, h2]

theorem lockOrder_locked (w : World m) (id : TaskId) (t : Task m) :
    lockOrder 0 ([LockEvent.lock (Mutex.task id)] ++ Task.NotifySubscribersLocks w id t ++
      [LockEvent.unlock (Mutex.task id)]) = some 0 := by
  have h1 : lockOrder 0 [LockEvent.lock (Mutex.task id)] = some 1 := rfl
  have h2 : lockOrder 1 [LockEvent.unlock (Mutex.task id)] = some 0 := rfl
  rw [lockOrder_append, lockOrder_append, h1]
  simp only [Option.some_bind, lockOrder_NotifySubscribersLocks, h2]

theorem lockOrder_CompleteLocks (w : World m) (id : TaskId) :
    lockOrder 0 (Task.CompleteLocks w id) = some 0 := by
  unfold Task.CompleteLocks
  split
  · rfl
  · exact lockOrder_locked w id _

theorem lockOrder_SetErrorLocks (w : World m) (id : TaskId) (e : ExceptionPtr) :
    lockOrder 0 (Task.SetErrorLocks w id e) = some 0 := by
  unfold Task.SetErrorLocks
  split
  · rfl
  · exact lockOrder_locked w id _

theorem lockOrder_CancelLocks (w : World m) (id : TaskId) :
    lockOrder 0 (Task.CancelLocks w id) = some 0 := by
  unfold Task.CancelLocks
  split
  · rfl
  · split
    · simp [lockOrder]
    · exact lockOrder_locked w id _

theorem lockOrder_RunWorkerPopLocks (w : World m) (now : TimePoint) :
    lockOrder 0 (Executor.RunWorkerPopLocks w now) = some 0 := by
  unfold Executor.RunWorkerPopLocks
  cases hfl : w.exec.is_finished_ with
  | true => rfl
  | false =>
    cases hq : w.exec.tasks_ with
    | nil => rfl
    | cons id rest =>
      cases hid : w.heap id with
      | none => simp [hid, lockOrder]
      | some task =>
        have h1 : lockOrder 0 [LockEvent.lock Mutex.executor] = some 0 := rfl
        have h3 : lockOrder 0
            (match task.CanBeExecuted w.heap now with
             | some false => Task.GetTimeTriggerLocks id
             | _ => []) = some 0 := by
          split
          · rfl
          · rfl
        have h4 : lockOrder 0 [LockEvent.unlock Mutex.executor] = some 0 := rfl
        simp only [Bool.false_eq_true, if_false, hid]
        rw [lockOrder_append, lockOrder_append, lockOrder_append, h1]
        simp only [Option.some_bind, lockOrder_CanBeExecutedLocks, h3, h4]

/-- C15, as stated, fails: `Executor::Submit` of a fresh task on a live executor, and the pop
section of a worker with a task in the queue, lock a task's mutex while they hold the
executor's mutex. -/
theorem Submit_and_pop_hold_both_mutexes :
    holdsBoth [] (oneTaskWorld.locks (Call.Submit 0)) = true ∧
    holdsBoth [] (timedOnlyWorld.locks (Call.RunWorkerPop 3)) = true := by
  decide

/-- C15, amended.  On every code path of `Task` and `Executor`, started by a thread that holds
no mutex, the executor's mutex is never locked while the thread holds a task's mutex: a task
unlocks its mutex before it calls into the executor.  The nesting the other way round does
occur: `Executor::Submit` on a live executor, and the pop section of the worker loop when the
queue is not empty, lock the task's mutex (in `IsFinished`, resp. `CanBeExecuted`) while they
hold the executor's mutex. -/
theorem lock_order (w : World m) :
    (∀ c : Call, lockOrder 0 (w.locks c) = some 0) ∧
    (∀ id task, w.heap id = some task → w.exec.is_finished_ = false →
      holdsBoth [] (Executor.SubmitLocks w id) = true) ∧
    (∀ now id rest task, w.exec.is_finished_ = false → w.exec.tasks_ = id :: rest →
      w.heap id = some task → holdsBoth [] (Executor.RunWorkerPopLocks w now) = true) := by
  refine ⟨?_, ?_, ?_⟩
  · intro c
    cases c with
    | AddDependency t dep =>
      simp [World.locks, Task.AddDependencyLocks, Task.AddSubscriberLocks, lockOrder]
    | AddTrigger t trigger =>
      simp [World.locks, Task.AddTriggerLocks, Task.AddSubscriberLocks, lockOrder]
    | AddSubscriber t => exact lockOrder_guard 0 t
    | SetTimeTrigger t => exact lockOrder_guard 0 t
    | GetTimeTrigger t => exact lockOrder_guard 0 t
    | Capture t => exact lockOrder_guard 0 t
    | Pend t => exact lockOrder_guard 0 t
    | Complete t => exact lockOrder_CompleteLocks w t
    | IsCompleted t => exact lockOrder_guard 0 t
    | IsFailed t => exact lockOrder_guard 0 t
    | IsCanceled t => exact lockOrder_guard 0 t
    | IsFinished t =>
      simp only [World.locks]
      split
      · rfl
      · exact lockOrder_IsFinishedLocks 0 _ t
    | CanBeExecuted t now =>
      simp only [World.locks]
      split
      · rfl
      · exact lockOrder_CanBeExecutedLocks 0 w.heap now _ t
    | SetError t e => exact lockOrder_SetErrorLocks w t e
    | GetError t => exact lockOrder_guard 0 t
    | Cancel t => exact lockOrder_CancelLocks w t
    | Wait t =>
      simp only [World.locks]
      split
      · rfl
      · next task _ =>
        unfold Task.WaitLocks
        have h1 : lockOrder 0 [LockEvent.lock (Mutex.task t)] = some 1 := rfl
        have h2 : lockOrder 1 [LockEvent.unlock (Mutex.task t)] = some 0 := rfl
        have h3 : lockOrder 1 (if task.IsFinished then [] else Task.IsFinishedLocks task t) =
            some 1 := by
          split
          · rfl
          · exact lockOrder_IsFinishedLocks 1 task t
        rw [lockOrder_append, lockOrder_append, h1]
        simp only [Option.some_bind, h3, h2]
    | SetNotificationHandler t => exact lockOrder_guard 0 t
    | Notify t =>
      simp only [World.locks]
      split
      · rfl
      · exact lockOrder_NotifyLocks w t _
    | Submit t =>
      simp only [World.locks, Executor.SubmitLocks]
      split
      · rfl
      · exact lockOrder_SubmitTaskLocks w t _
    | StartShutdown => rfl
    | RunWorkerPop now => exact lockOrder_RunWorkerPopLocks w now
    | RunWorkerCapture t => exact lockOrder_guard 0 t
    | RunWorkerFinish t thrown =>
      simp only [World.locks]
      split
      · exact lockOrder_CompleteLocks w t
      · exact lockOrder_SetErrorLocks w t _
  · intro id task hid hfl
    simp [Executor.SubmitLocks, hid, Executor.SubmitTaskLocks, hfl, Task.IsFinishedLocks,
      holdsBoth, Mutex.isTask]
  · intro now id rest task hfl hq hid
    simp [Executor.RunWorkerPopLocks, hfl, hq, hid, Task.CanBeExecutedLocks, holdsBoth,
      Mutex.isTask]

/-! ## Re-locking a mutex the thread already holds -/

/-- C19. The claim fails on the code: `Task::IsFinished` takes the task's mutex and, still
holding it, calls `IsCompleted`, which locks the same non-recursive mutex again.  So does every
caller of `IsFinished`: `Executor::Submit` on a live executor, `Task::Wait` on a task that is
not finished, and `Task::CanBeExecuted` on a task whose trigger list is evaluated. -/
theorem IsFinished_relocks :
    (∀ (t : Task m) (id : TaskId), relocks [] (Task.IsFinishedLocks t id) = true) ∧
    (∀ (w : World m) (id : TaskId) (task : Task m), w.heap id = some task →
      w.exec.is_finished_ = false → relocks [] (w.locks (Call.Submit id)) = true) ∧
    (∀ (w : World m) (id : TaskId) (task : Task m), w.heap id = some task →
      task.IsFinished = false → relocks [] (w.locks (Call.Wait id)) = true) ∧
    relocks [] (onceWiredWorld.locks (Call.IsFinished 0)) = true ∧
    relocks [] (timedWorld.locks (Call.CanBeExecuted 0 0)) = true ∧
    relocks [] (onceWiredWorld.locks (Call.CanBeExecuted 0 0)) = true := by
  refine ⟨?_, ?_, ?_, by decide, by decide, by decide⟩
  · intro t id
    simp [Task.IsFinishedLocks, Task.IsCompletedLocks, relocks]
  · intro w id task hid hfl
    simp [World.locks, Executor.SubmitLocks, hid, Executor.SubmitTaskLocks, hfl,
      Task.IsFinishedLocks, Task.IsCompletedLocks, relocks]
  · intro w id task hid hf
    simp [World.locks, hid, Task.WaitLocks, hf, Task.IsFinishedLocks, relocks]

end thread_pool
